import Mathlib

/-!
# Employee directory: validation layer and resource API

A shallow embedding of `backend/server.js`: the `validateEmployee` middleware,
the five route handlers over the `employees` table, the middleware chain and
route table around them, and of the parts of `frontend/src/App.js` the
specification speaks of (form validation, the filtered view, the submit
handler), with the properties the specification states about them.

Modelling conventions.
* A JavaScript string is a Lean `String`; the characters that matter to the
  code (white space, `@`, `.`) all lie in the Basic Multilingual Plane, so the
  code-unit view of the regular expression and the code-point view agree.
* A request body field is a `JVal`: what `express.json()` can put there.
* The SQLite table is a list of rows in rowid order together with the
  `AUTOINCREMENT` high-water mark; time is the `CURRENT_TIMESTAMP` the store
  reads when a statement runs, in whole seconds.
-/

namespace EmployeeApi

/-! ## JavaScript strings -/

/-- The code points matched by `\s` in a regular expression and removed by
`String.prototype.trim`: ECMAScript `WhiteSpace` and `LineTerminator`. -/
def isJsSpace (c : Char) : Bool :=
  let n := c.toNat
  (9 ≤ n && n ≤ 13) || n == 0x20 || n == 0xA0 || n == 0x1680 ||
  (0x2000 ≤ n && n ≤ 0x200A) || n == 0x2028 || n == 0x2029 ||
  n == 0x202F || n == 0x205F || n == 0x3000 || n == 0xFEFF

/-- The characters of `s.trim()`. -/
def trimChars (cs : List Char) : List Char :=
  ((cs.dropWhile isJsSpace).reverse.dropWhile isJsSpace).reverse

/-- The JavaScript `s.trim()`. -/
def jsTrim (s : String) : String := String.mk (trimChars s.data)

/-- The JavaScript `s.includes(sub)`. -/
def jsIncludes (s sub : String) : Bool := decide (sub.data <:+: s.data)

/-! ## Regular expressions

`RegExp.prototype.test` on a pattern without back-references, look-around or
flags decides membership of the whole string (the pattern is anchored by `^`
and `$`) in the pattern's language.  The matcher is Brzozowski's. -/

/-- Regular expressions over character classes. -/
inductive Regex where
  | empty : Regex
  | eps : Regex
  | cls (p : Char → Bool) : Regex
  | alt (a b : Regex) : Regex
  | seq (a b : Regex) : Regex
  | star (a : Regex) : Regex

namespace Regex

/-- The quantifier `+`. -/
def plus (r : Regex) : Regex := seq r (star r)

/-- Whether the expression matches the empty string. -/
def nullable : Regex → Bool
  | empty => false
  | eps => true
  | cls _ => false
  | alt a b => a.nullable || b.nullable
  | seq a b => a.nullable && b.nullable
  | star _ => true

/-- The derivative with respect to one character. -/
def deriv : Regex → Char → Regex
  | empty, _ => empty
  | eps, _ => empty
  | cls p, c => if p c then eps else empty
  | alt a b, c => alt (a.deriv c) (b.deriv c)
  | seq a b, c =>
      if a.nullable then alt (seq (a.deriv c) b) (b.deriv c) else seq (a.deriv c) b
  | star a, c => seq (a.deriv c) (star a)

/-- Anchored match of a whole character list. -/
def rmatch : Regex → List Char → Bool
  | r, [] => r.nullable
  | r, c :: cs => rmatch (r.deriv c) cs

/-- The language of an expression. -/
def lang : Regex → Language Char
  | empty => 0
  | eps => 1
  | cls p => {w | ∃ c, p c = true ∧ w = [c]}
  | alt a b => a.lang + b.lang
  | seq a b => a.lang * b.lang
  | star a => KStar.kstar a.lang

end Regex

/-- The class `[^\s@]`. -/
def notSpaceAt (c : Char) : Bool := !(isJsSpace c || c == '@')

/-- The pattern `/^[^\s@]+@[^\s@]+\.[^\s@]+$/` of `validateEmployee`. -/
def emailRegex : Regex :=
  .seq (.plus (.cls notSpaceAt))
    (.seq (.cls (· == '@'))
      (.seq (.plus (.cls notSpaceAt))
        (.seq (.cls (· == '.')) (.plus (.cls notSpaceAt)))))

/-- The call `emailRegex.test(email)` on a string. -/
def emailTest (email : String) : Bool := emailRegex.rmatch email.data

/-! ## Request bodies and validation -/

/-- A JSON value as a body field holds it after `express.json()`; `absent` is
the `undefined` of a missing key.  Numbers are kept as integers: only whether
the number is zero matters to the code. -/
inductive JVal where
  | absent : JVal
  | null : JVal
  | bool (b : Bool) : JVal
  | num (n : Int) : JVal
  | str (s : String) : JVal
  | arr (items : List JVal) : JVal
  | obj (fields : List (String × JVal)) : JVal

/-- JavaScript truthiness, the negation of `!v`. -/
def JVal.truthy : JVal → Bool
  | .absent => false
  | .null => false
  | .bool b => b
  | .num n => n != 0
  | .str s => s != ""
  | .arr _ => true
  | .obj _ => true

/-- The call `v.trim()` on a truthy value: only a string has a callable `trim`;
on anything else the call throws a `TypeError` (`none`). -/
def JVal.callTrim : JVal → Option String
  | .str s => some (jsTrim s)
  | _ => none

/-- The destructured `req.body`. -/
structure Body where
  name : JVal
  email : JVal
  position : JVal

/-- What a middleware does with a request: call `next()`, answer with a status
and an error message, or throw. -/
inductive Validation where
  | next : Validation
  | reject (status : Nat) (error : String) : Validation
  | throw : Validation
deriving DecidableEq, Repr

/-- The test `!v || !v.trim()`: `some true` when the field is missing or blank,
`some false` when it is a non-blank string, `none` when the call throws. -/
def missingOrBlank (v : JVal) : Option Bool :=
  if !v.truthy then some true
  else match v.callTrim with
    | some t => some (t == "")
    | none => none

/-- The call `emailRegex.test(email)`, reached only after `email.trim()`
returned, hence on a string. -/
def JVal.emailTest : JVal → Bool
  | .str s => EmployeeApi.emailTest s
  | _ => false

/-- The middleware `validateEmployee`. -/
def validateEmployee (b : Body) : Validation :=
  match missingOrBlank b.name with
  | none => .throw
  | some true => .reject 400 "Name is required"
  | some false =>
    match missingOrBlank b.email with
    | none => .throw
    | some true => .reject 400 "Email is required"
    | some false =>
      if !b.email.emailTest then .reject 400 "Invalid email format"
      else
        match missingOrBlank b.position with
        | none => .throw
        | some true => .reject 400 "Position is required"
        | some false => .next

/-! ## The record store

The `employees` table of SQLite, as the statements of `server.js` see it.  A
statement either fails with the driver's error message or completes; `fault`
is an error the driver reports for a reason outside the statement's own
semantics (I/O failure, locked file), in which case nothing is written. -/

/-- A row of `employees`. -/
structure Employee where
  id : Nat
  name : String
  email : String
  position : String
  created_at : Nat
  updated_at : Nat
deriving DecidableEq, Repr

/-- The table, in rowid order, and the `sqlite_sequence` entry that
`AUTOINCREMENT` keeps: the largest rowid ever handed out. -/
structure Store where
  rows : List Employee
  seq : Nat
deriving DecidableEq, Repr

/-- The table right after `CREATE TABLE IF NOT EXISTS` on a fresh file. -/
def Store.init : Store := ⟨[], 0⟩

/-- The message of the error SQLite raises for the `UNIQUE` column. -/
def uniqueViolation : String :=
  "SQLITE_CONSTRAINT: UNIQUE constraint failed: employees.email"

/-- The rowid `AUTOINCREMENT` assigns next: one more than the largest rowid the
table holds or has ever held. -/
def Store.nextId (st : Store) : Nat :=
  (st.rows.foldl (fun m r => max m r.id) st.seq) + 1

/-- The comparison `id = ?` against a bound key; `none` is a parameter that
names no integer and so equals no rowid. -/
def Employee.hasKey (key : Option Nat) (r : Employee) : Bool :=
  key == some r.id

/-- The statement `INSERT INTO employees (name, email, position) VALUES (?, ?, ?)`: the new
rowid (`this.lastID`) on success. -/
def sqlInsert (st : Store) (name email position : String) (now : Nat)
    (fault : Option String) : Except String (Store × Nat) :=
  match fault with
  | some msg => .error msg
  | none =>
    if st.rows.any (fun r => r.email == email) then .error uniqueViolation
    else
      let id := st.nextId
      .ok (⟨st.rows ++ [⟨id, name, email, position, now, now⟩], id⟩, id)

/-- The query `SELECT * FROM employees WHERE id = ?` through `db.get`: the first row. -/
def sqlSelectById (st : Store) (key : Option Nat) (fault : Option String) :
    Except String (Option Employee) :=
  match fault with
  | some msg => .error msg
  | none => .ok (st.rows.find? (Employee.hasKey key))

/-- The order of `ORDER BY created_at DESC`. -/
def createdDesc (a b : Employee) : Prop := b.created_at ≤ a.created_at

instance : DecidableRel createdDesc := fun a b =>
  inferInstanceAs (Decidable (b.created_at ≤ a.created_at))

/-- The query `SELECT * FROM employees ORDER BY created_at DESC` through `db.all`: the
table scan in rowid order fed to a stable sort. -/
def sqlSelectAll (st : Store) (fault : Option String) : Except String (List Employee) :=
  match fault with
  | some msg => .error msg
  | none => .ok (st.rows.insertionSort createdDesc)

/-- The statement `UPDATE employees SET name = ?, email = ?, position = ?, updated_at =
CURRENT_TIMESTAMP WHERE id = ?`: the number of rows changed (`this.changes`).
The statement fails when a row it rewrites would take an email another row
holds. -/
def sqlUpdate (st : Store) (name email position : String) (key : Option Nat) (now : Nat)
    (fault : Option String) : Except String (Store × Nat) :=
  match fault with
  | some msg => .error msg
  | none =>
    if st.rows.any (Employee.hasKey key) &&
        st.rows.any (fun r => !r.hasKey key && r.email == email) then
      .error uniqueViolation
    else
      .ok (⟨st.rows.map (fun r =>
              if r.hasKey key then
                { r with name := name, email := email, position := position, updated_at := now }
              else r), st.seq⟩,
           st.rows.countP (Employee.hasKey key))

/-- The statement `DELETE FROM employees WHERE id = ?`: the number of rows removed. -/
def sqlDelete (st : Store) (key : Option Nat) (fault : Option String) :
    Except String (Store × Nat) :=
  match fault with
  | some msg => .error msg
  | none =>
    .ok (⟨st.rows.filter (fun r => !r.hasKey key), st.seq⟩,
         st.rows.countP (Employee.hasKey key))

/-! ## The resource API -/

/-- A JSON response body. -/
inductive RespBody where
  | error (msg : String) : RespBody
  | record (row : Employee) : RespBody
  | records (rows : List Employee) : RespBody
  | deleted (message deletedId : String) : RespBody
  | nothing : RespBody
deriving DecidableEq, Repr

/-- A response: status code and body. -/
structure Response where
  status : Nat
  body : RespBody
deriving DecidableEq, Repr

/-- The body `res.json(row)` sends for the result of `db.get`. -/
def RespBody.ofRow : Option Employee → RespBody
  | some r => .record r
  | none => .nothing

/-- The answer of the error-handling middleware to a thrown error. -/
def internalError : Response := ⟨500, .error "Internal server error"⟩

/-- How SQLite reads the text of a path parameter when it compares it with the
integer primary key: the rowid it denotes, if any. -/
abbrev RowidOf := String → Option Nat

/-- The route `GET /api/employees`. -/
def listEmployees (st : Store) (fault : Option String) : Store × Response :=
  match sqlSelectAll st fault with
  | .error _ => (st, ⟨500, .error "Failed to fetch employees"⟩)
  | .ok rows => (st, ⟨200, .records rows⟩)

/-- The route `GET /api/employees/:id`. -/
def getEmployee (κ : RowidOf) (st : Store) (id : String) (fault : Option String) :
    Store × Response :=
  match sqlSelectById st (κ id) fault with
  | .error _ => (st, ⟨500, .error "Failed to fetch employee"⟩)
  | .ok none => (st, ⟨404, .error "Employee not found"⟩)
  | .ok (some row) => (st, ⟨200, .record row⟩)

/-- The route `POST /api/employees`, behind `validateEmployee`. -/
def createEmployee (st : Store) (b : Body) (now : Nat) (fault fault2 : Option String) :
    Store × Response :=
  match validateEmployee b with
  | .throw => (st, internalError)
  | .reject status msg => (st, ⟨status, .error msg⟩)
  | .next =>
    match b.name.callTrim, b.email.callTrim, b.position.callTrim with
    | some name, some email, some position =>
      match sqlInsert st name email position now fault with
      | .error msg =>
        if jsIncludes msg "UNIQUE constraint failed" then
          (st, ⟨400, .error "Email already exists"⟩)
        else (st, ⟨500, .error "Failed to create employee"⟩)
      | .ok (st1, lastID) =>
        match sqlSelectById st1 (some lastID) fault2 with
        | .error _ => (st1, ⟨500, .error "Employee created but failed to fetch"⟩)
        | .ok row => (st1, ⟨201, .ofRow row⟩)
    | _, _, _ => (st, internalError)

/-- The route `PUT /api/employees/:id`, behind `validateEmployee`. -/
def updateEmployee (κ : RowidOf) (st : Store) (id : String) (b : Body) (now : Nat)
    (fault fault2 : Option String) : Store × Response :=
  match validateEmployee b with
  | .throw => (st, internalError)
  | .reject status msg => (st, ⟨status, .error msg⟩)
  | .next =>
    match b.name.callTrim, b.email.callTrim, b.position.callTrim with
    | some name, some email, some position =>
      match sqlUpdate st name email position (κ id) now fault with
      | .error msg =>
        if jsIncludes msg "UNIQUE constraint failed" then
          (st, ⟨400, .error "Email already exists"⟩)
        else (st, ⟨500, .error "Failed to update employee"⟩)
      | .ok (st1, changes) =>
        if changes = 0 then (st1, ⟨404, .error "Employee not found"⟩)
        else
          match sqlSelectById st1 (κ id) fault2 with
          | .error _ => (st1, ⟨500, .error "Employee updated but failed to fetch"⟩)
          | .ok row => (st1, ⟨200, .ofRow row⟩)
    | _, _, _ => (st, internalError)

/-- The route `DELETE /api/employees/:id`. -/
def deleteEmployee (κ : RowidOf) (st : Store) (id : String) (fault : Option String) :
    Store × Response :=
  match sqlDelete st (κ id) fault with
  | .error _ => (st, ⟨500, .error "Failed to delete employee"⟩)
  | .ok (st1, changes) =>
    if changes = 0 then (st1, ⟨404, .error "Employee not found"⟩)
    else (st1, ⟨200, .deleted "Employee deleted successfully" id⟩)

/-- A request to one of the five employee routes. -/
inductive Request where
  | list : Request
  | get (id : String) : Request
  | create (b : Body) : Request
  | update (id : String) (b : Body) : Request
  | delete (id : String) : Request

/-- What surrounds a request: the store's clock when its statement runs and
the failures the driver reports for its first and second statement. -/
structure Env where
  now : Nat
  fault : Option String
  fault2 : Option String

/-- One request served. -/
def handle (κ : RowidOf) (st : Store) (env : Env) : Request → Store × Response
  | .list => listEmployees st env.fault
  | .get id => getEmployee κ st id env.fault
  | .create b => createEmployee st b env.now env.fault env.fault2
  | .update id b => updateEmployee κ st id b env.now env.fault env.fault2
  | .delete id => deleteEmployee κ st id env.fault

/-- The store states the API can bring about from the empty table. -/
inductive Reachable (κ : RowidOf) : Store → Prop where
  | init : Reachable κ Store.init
  | step {st : Store} (env : Env) (req : Request) :
      Reachable κ st → Reachable κ (handle κ st env req).1

/-- A reading of path parameters that covers plain decimal numerals, on which
it agrees with SQLite; it serves to run the handlers on concrete requests. -/
def decimalRowid : RowidOf := fun s =>
  if s.data ≠ [] ∧ s.data.all Char.isDigit then
    some (s.data.foldl (fun n c => 10 * n + (c.toNat - 48)) 0)
  else none

/-! ## Vocabulary of the specification -/

/-- A non-empty run of characters that are neither white space nor `@`. -/
def IsRun (w : List Char) : Prop := w ≠ [] ∧ ∀ c ∈ w, notSpaceAt c = true

/-- The shape `local@d1.d2` with three non-empty runs free of white space and
of `@`. -/
def EmailShape (w : List Char) : Prop :=
  ∃ l d1 d2, w = l ++ '@' :: (d1 ++ '.' :: d2) ∧ IsRun l ∧ IsRun d1 ∧ IsRun d2

/-- The shape in the specification's words: no white space anywhere, a
non-empty local part, an `@`, and a domain containing a `.`. -/
def SpecEmailShape (w : List Char) : Prop :=
  (∀ c ∈ w, isJsSpace c = false) ∧ ∃ l d, w = l ++ '@' :: d ∧ l ≠ [] ∧ '.' ∈ d

/-- A field that is absent or holds a string. -/
def JVal.absentOrStr : JVal → Bool
  | .absent => true
  | .str _ => true
  | _ => false

/-- A field that holds a string or a falsy value (absent, `null`, `false`,
`0`). -/
def JVal.strOrFalsy (v : JVal) : Bool :=
  match v with
  | .str _ => true
  | _ => !v.truthy

/-- A field that is absent or blank after trimming. -/
def JVal.isBlank : JVal → Bool
  | .absent => true
  | .str s => jsTrim s == ""
  | _ => false

/-- The four reasons of a validation error. -/
def validationReasons : List String :=
  ["Name is required", "Email is required", "Invalid email format", "Position is required"]

instance : IsTotal Employee createdDesc := ⟨fun a b => Nat.le_total b.created_at a.created_at⟩

instance : IsTrans Employee createdDesc := ⟨fun _ _ _ hab hbc => Nat.le_trans hbc hab⟩

/-- The row an `INSERT` writes. -/
def Store.newRow (st : Store) (name email position : String) (now : Nat) : Employee :=
  ⟨st.nextId, name, email, position, now, now⟩

/-- The storage-layer invariants: emails are unique and rowids are unique. -/
def Store.WF (st : Store) : Prop :=
  (st.rows.map Employee.email).Nodup ∧ (st.rows.map Employee.id).Nodup

/-- The request body of the test suite's first example. -/
def johnBody : Body :=
  ⟨.str "John Doe", .str "john.doe@example.com", .str "Software Developer"⟩

/-- The fixed messages a response with status 500 can carry. -/
def serverErrorMessages : List String :=
  ["Failed to fetch employees", "Failed to fetch employee", "Failed to create employee",
   "Employee created but failed to fetch", "Failed to update employee",
   "Employee updated but failed to fetch", "Failed to delete employee",
   "Internal server error"]

/-- The row an `UPDATE` leaves in place of a row it matches. -/
def Employee.rewrite (r : Employee) (name email position : String) (now : Nat) : Employee :=
  { r with name := name, email := email, position := position, updated_at := now }

/-- A record as the data model wants it stored: name and position non-empty
and equal to their trimmed form, email non-empty and matching the pattern. -/
def Employee.Clean (r : Employee) : Prop :=
  r.name ≠ "" ∧ jsTrim r.name = r.name ∧ r.position ≠ "" ∧ jsTrim r.position = r.position ∧
  r.email ≠ "" ∧ emailTest r.email = true

/-- A table with two records, created at times 7 and 8. -/
def twoStore : Store :=
  ⟨[⟨1, "John Doe", "john.doe@example.com", "Software Developer", 7, 7⟩,
    ⟨2, "Jane Doe", "jane.doe@example.com", "Designer", 8, 8⟩], 2⟩

/-- The replacement body of the test suite's update example. -/
def smithBody : Body :=
  ⟨.str "John Smith", .str "john.smith@example.com", .str "Senior Software Developer"⟩

/-- A response that, if its status is 500, carries one of the fixed messages. -/
def Response.GenericFailure (r : Response) : Prop :=
  r.status = 500 → ∃ m ∈ serverErrorMessages, r.body = .error m

/-- The record of id 1 after `smithBody` replaced its fields at time 8, having
been created at time 7. -/
def smithRow : Employee :=
  ⟨1, "John Smith", "john.smith@example.com", "Senior Software Developer", 7, 8⟩

/-- Whether a string starts or ends with a white-space character. -/
def hasEdgeSpace (s : String) : Bool :=
  (s.data.head?.map isJsSpace).getD false || (s.data.getLast?.map isJsSpace).getD false

/-- The shape in the words of the pattern's description: no white space,
exactly one `@` with a non-empty part before it, and after it a part holding a
`.` that is neither its first nor its last character. -/
def OneAtDotInside (w : List Char) : Prop :=
  (∀ c ∈ w, isJsSpace c = false) ∧ w.count '@' = 1 ∧
  ∃ l d, w = l ++ '@' :: d ∧ l ≠ [] ∧ ∃ d1 d2, d = d1 ++ '.' :: d2 ∧ d1 ≠ [] ∧ d2 ≠ []

/-! ## Middleware and routing

The application runs `cors()`, then `express.json()`, then the six routes,
then the handler for everything else; an error raised on the way goes to the
error-handling middleware. -/

/-- An HTTP method. -/
inductive Method where
  | GET : Method
  | HEAD : Method
  | POST : Method
  | PUT : Method
  | DELETE : Method
  | PATCH : Method
  | OPTIONS : Method
  | other (name : String) : Method
deriving DecidableEq, Repr

/-- A request as the application receives it: the method, the path of the URL,
and what `express.json()` leaves in `req.body`, or `none` when the parser
raises (malformed JSON, oversized body). -/
structure HttpRequest where
  method : Method
  path : String
  body : Option Body

/-- The case folding of a route match: ASCII letters only. -/
def asciiLower (c : Char) : Char :=
  if 65 ≤ c.toNat ∧ c.toNat ≤ 90 then Char.ofNat (c.toNat + 32) else c

/-- Match of a path against a fixed route path: letter case is ignored and one
trailing slash is allowed. -/
def matchFixed (route path : String) : Bool :=
  path.data.map asciiLower == route.data || path.data.map asciiLower == route.data ++ ['/']

/-- Match of a path against a route path that ends in `:id`: the text captured
for the parameter, a non-empty run without a slash, after which one trailing
slash is allowed. -/
def matchParam (pre path : String) : Option String :=
  if (path.data.take pre.data.length).map asciiLower == pre.data then
    let rest := path.data.drop pre.data.length
    let seg := if rest.getLast? == some '/' then rest.dropLast else rest
    if seg ≠ [] ∧ '/' ∉ seg then some (String.mk seg) else none
  else none

/-- The routes of `server.js`, with the text captured for `:id`. -/
inductive Route where
  | list : Route
  | get (seg : String) : Route
  | create : Route
  | update (seg : String) : Route
  | delete (seg : String) : Route
  | health : Route
deriving DecidableEq, Repr

/-- The route a method and path select, if any; a route registered with
`app.get` also serves `HEAD`. -/
def routeOf (m : Method) (path : String) : Option Route :=
  match m with
  | .GET | .HEAD =>
    if matchFixed "/api/employees" path then some .list
    else
      match matchParam "/api/employees/" path with
      | some seg => some (.get seg)
      | none => if matchFixed "/api/health" path then some .health else none
  | .POST => if matchFixed "/api/employees" path then some .create else none
  | .PUT => (matchParam "/api/employees/" path).map .update
  | .DELETE => (matchParam "/api/employees/" path).map .delete
  | _ => none

/-- What the server sends back: a JSON response of a handler, the health
report with its timestamp, or the empty 204 with which `cors()` ends a
preflight. -/
inductive Served where
  | json (r : Response) : Served
  | health (timestamp : String) : Served
  | preflight : Served
deriving DecidableEq, Repr

/-- The application as a whole.  `decode` is `decodeURIComponent` on the text
captured for `:id`, `none` when it throws; `clock` is the time the health
route reports. -/
def serve (κ : RowidOf) (decode : String → Option String) (clock : String) (st : Store)
    (env : Env) (req : HttpRequest) : Store × Served :=
  if req.method = .OPTIONS then (st, .preflight)
  else
    match req.body with
    | none => (st, .json internalError)
    | some b =>
      match routeOf req.method req.path with
      | none => (st, .json ⟨404, .error "Endpoint not found"⟩)
      | some .health => (st, .health clock)
      | some .list => ((handle κ st env .list).1, .json (handle κ st env .list).2)
      | some .create => ((handle κ st env (.create b)).1, .json (handle κ st env (.create b)).2)
      | some (.get seg) =>
        match decode seg with
        | none => (st, .json internalError)
        | some id => ((handle κ st env (.get id)).1, .json (handle κ st env (.get id)).2)
      | some (.update seg) =>
        match decode seg with
        | none => (st, .json internalError)
        | some id =>
          ((handle κ st env (.update id b)).1, .json (handle κ st env (.update id b)).2)
      | some (.delete seg) =>
        match decode seg with
        | none => (st, .json internalError)
        | some id => ((handle κ st env (.delete id)).1, .json (handle κ st env (.delete id)).2)

/-- The body `express.json()` leaves when the request carries none. -/
def emptyBody : Body := ⟨.absent, .absent, .absent⟩

/-! ## The client (`App.js`)

The state of the `App` component and its handlers, with every request's
outcome passed in.  `toLowerCase` is JavaScript's `String.prototype.toLowerCase`,
whose Unicode case mapping is left abstract. -/

/-- The fields of the add/edit form. -/
structure FormData where
  name : String
  email : String
  position : String
deriving DecidableEq, Repr

/-- The `errors` object: a message per field that has one. -/
structure FormErrors where
  name : Option String
  email : Option String
  position : Option String
deriving DecidableEq, Repr

/-- The `snackbar` state (`open` is `isOpen` here). -/
structure Snackbar where
  isOpen : Bool
  message : String
  severity : String
deriving DecidableEq, Repr

/-- The state of the `App` component; `filteredEmployees` is derived from
`employees` and `searchTerm` by an effect. -/
structure UiState where
  employees : List Employee
  searchTerm : String
  openDialog : Bool
  editingEmployee : Option Employee
  formData : FormData
  errors : FormErrors
  snackbar : Snackbar
  loading : Bool
  apiError : String
deriving DecidableEq, Repr

/-- The outcome of an axios call: the response data, or an error with
`error.response?.data?.error` (when it is a non-empty string) and
`error.message`. -/
inductive AxiosResult (α : Type) where
  | ok (data : α) : AxiosResult α
  | failed (responseError : Option String) (message : String) : AxiosResult α

/-- The class `\S`. -/
def nonSpace (c : Char) : Bool := !isJsSpace c

/-- The pattern `/\S+@\S+\.\S+/` of `validateForm`. -/
def formEmailRegex : Regex :=
  .seq (.plus (.cls nonSpace))
    (.seq (.cls (· == '@'))
      (.seq (.plus (.cls nonSpace))
        (.seq (.cls (· == '.')) (.plus (.cls nonSpace)))))

/-- The call `re.test(s)` for a pattern without anchors: some substring of the
string matches. -/
def Regex.test (r : Regex) (w : List Char) : Bool :=
  w.tails.any (fun t => t.inits.any r.rmatch)

/-- The function `validateForm`: the errors it sets and its result. -/
def validateForm (f : FormData) : FormErrors × Bool :=
  let newErrors : FormErrors :=
    { name := if jsTrim f.name == "" then some "Name is required" else none
      email :=
        if jsTrim f.email == "" then some "Email is required"
        else if !formEmailRegex.test f.email.data then some "Email is invalid"
        else none
      position := if jsTrim f.position == "" then some "Position is required" else none }
  (newErrors, newErrors.name.isNone && newErrors.email.isNone && newErrors.position.isNone)

/-- The filter effect: the value it gives `filteredEmployees`. -/
def filteredEmployees (toLowerCase : String → String) (employees : List Employee)
    (searchTerm : String) : List Employee :=
  employees.filter (fun emp =>
    jsIncludes (toLowerCase emp.name) (toLowerCase searchTerm) ||
    jsIncludes (toLowerCase emp.email) (toLowerCase searchTerm) ||
    jsIncludes (toLowerCase emp.position) (toLowerCase searchTerm))

/-- The expression `error.response?.data?.error || error.message || fallback`. -/
def errorMessageOf (responseError : Option String) (message fallback : String) : String :=
  match responseError with
  | some m => if m != "" then m else if message != "" then message else fallback
  | none => if message != "" then message else fallback

/-- The function `showSnackbar`. -/
def showSnackbar (ui : UiState) (message severity : String) : UiState :=
  { ui with snackbar := ⟨true, message, severity⟩ }

/-- The function `fetchEmployees`, given the outcome of its GET. -/
def fetchEmployees (ui : UiState) (result : AxiosResult (List Employee)) : UiState :=
  let ui1 := { ui with loading := true, apiError := "" }
  let ui2 :=
    match result with
    | .ok data => { ui1 with employees := data }
    | .failed responseError message =>
      let errorMessage := errorMessageOf responseError message "Failed to fetch employees"
      showSnackbar { ui1 with apiError := errorMessage } errorMessage "error"
  { ui2 with loading := false }

/-- The function `handleCloseDialog`. -/
def handleCloseDialog (ui : UiState) : UiState :=
  { ui with openDialog := false, editingEmployee := none, formData := ⟨"", "", ""⟩,
            errors := ⟨none, none, none⟩ }

/-- The function `handleSubmit`, given the outcome of its PUT or POST and of
the GET that `fetchEmployees` makes after a success. -/
def handleSubmit (ui : UiState) (submit : AxiosResult Employee)
    (fetch : AxiosResult (List Employee)) : UiState :=
  let ui0 := { ui with errors := (validateForm ui.formData).1 }
  if !(validateForm ui.formData).2 then ui0
  else
    let ui1 := { ui0 with loading := true }
    let ui2 :=
      match submit with
      | .ok _ =>
        let ui3 :=
          if ui.editingEmployee.isSome then showSnackbar ui1 "Employee updated successfully" "success"
          else showSnackbar ui1 "Employee added successfully" "success"
        handleCloseDialog (fetchEmployees ui3 fetch)
      | .failed responseError message =>
        showSnackbar ui1 (errorMessageOf responseError message "Failed to save employee") "error"
    { ui2 with loading := false }

/-- ASCII lower-casing of a string, an instance of `toLowerCase` on ASCII
text. -/
def asciiLowerCase (s : String) : String := String.mk (s.data.map asciiLower)

/-- A client state with the edit dialog open on the first record of
`twoStore`. -/
def editingUi : UiState :=
  { employees := twoStore.rows, searchTerm := "", openDialog := true,
    editingEmployee := twoStore.rows.head?,
    formData := ⟨"John Doe", "jane.doe@example.com", "Software Developer"⟩,
    errors := ⟨none, none, none⟩, snackbar := ⟨false, "", "success"⟩, loading := false,
    apiError := "" }

/-! ## The matcher decides the language -/

namespace Regex

theorem nullable_iff (r : Regex) : r.nullable = true ↔ [] ∈ r.lang := by
  induction r with
  | empty => simp [nullable, lang, Language.not_mem_zero]
  | eps => simp [nullable, lang, Language.mem_one]
  | cls p =>
    simp only [nullable, lang]
    constructor
    · intro h; cases h
    · rintro ⟨c, -, h⟩; cases h
  | alt a b iha ihb => simp [nullable, lang, Language.mem_add, iha, ihb]
  | seq a b iha ihb =>
    simp only [nullable, lang, Bool.and_eq_true, iha, ihb, Language.mem_mul]
    constructor
    · rintro ⟨h1, h2⟩; exact ⟨[], h1, [], h2, rfl⟩
    · rintro ⟨u, hu, v, hv, huv⟩
      obtain ⟨rfl, rfl⟩ := List.append_eq_nil.mp huv
      exact ⟨hu, hv⟩
  | star a _ => simp [nullable, lang, Language.nil_mem_kstar]

theorem cons_mem_mul (A B : Language Char) (c : Char) (w : List Char) :
    c :: w ∈ A * B ↔
      ([] ∈ A ∧ c :: w ∈ B) ∨ ∃ u v, w = u ++ v ∧ c :: u ∈ A ∧ v ∈ B := by
  rw [Language.mem_mul]
  constructor
  · rintro ⟨x, hx, y, hy, hxy⟩
    cases x with
    | nil => left; simp only [List.nil_append] at hxy; subst hxy; exact ⟨hx, hy⟩
    | cons d u =>
      right
      simp only [List.cons_append, List.cons.injEq] at hxy
      obtain ⟨rfl, rfl⟩ := hxy
      exact ⟨u, y, rfl, hx, hy⟩
  · rintro (⟨h1, h2⟩ | ⟨u, v, rfl, hu, hv⟩)
    · exact ⟨[], h1, c :: w, h2, rfl⟩
    · exact ⟨c :: u, hu, v, hv, rfl⟩

theorem cons_mem_kstar (A : Language Char) (c : Char) (w : List Char) :
    c :: w ∈ KStar.kstar A ↔ ∃ u v, w = u ++ v ∧ c :: u ∈ A ∧ v ∈ KStar.kstar A := by
  constructor
  · intro h
    obtain ⟨S, hS, hall⟩ := Language.mem_kstar_iff_exists_nonempty.mp h
    cases S with
    | nil => simp at hS
    | cons y S =>
      obtain ⟨hy, hne⟩ := hall y (List.mem_cons_self _ _)
      cases y with
      | nil => exact absurd rfl hne
      | cons d u =>
        simp only [List.flatten_cons, List.cons_append, List.cons.injEq] at hS
        obtain ⟨rfl, rfl⟩ := hS
        refine ⟨u, S.flatten, rfl, hy, ?_⟩
        exact Language.join_mem_kstar fun z hz => (hall z (List.mem_cons_of_mem _ hz)).1
  · rintro ⟨u, v, rfl, hu, hv⟩
    obtain ⟨S, rfl, hall⟩ := Language.mem_kstar.mp hv
    have : c :: (u ++ S.flatten) = ((c :: u) :: S).flatten := by simp
    rw [this]
    apply Language.join_mem_kstar
    intro z hz
    rcases List.mem_cons.mp hz with rfl | hz
    · exact hu
    · exact hall z hz

theorem deriv_lang (r : Regex) (c : Char) :
    ∀ w : List Char, w ∈ (r.deriv c).lang ↔ c :: w ∈ r.lang := by
  induction r with
  | empty => intro w; simp [deriv, lang, Language.not_mem_zero]
  | eps => intro w; simp [deriv, lang, Language.not_mem_zero, Language.mem_one]
  | cls p =>
    intro w
    simp only [deriv, lang]
    by_cases hp : p c = true
    · simp only [hp, if_true, lang, Language.mem_one]
      constructor
      · rintro rfl; exact ⟨c, hp, rfl⟩
      · rintro ⟨d, -, h⟩
        simp only [List.cons.injEq] at h
        exact h.2
    · simp only [hp, lang]
      constructor
      · intro h; exact absurd h (Language.not_mem_zero _)
      · rintro ⟨d, hd, h⟩
        simp only [List.cons.injEq] at h
        obtain ⟨rfl, -⟩ := h
        exact absurd hd hp
  | alt a b iha ihb => intro w; simp [deriv, lang, Language.mem_add, iha, ihb]
  | seq a b iha ihb =>
    intro w
    rw [lang, cons_mem_mul]
    by_cases hn : a.nullable = true
    · simp only [deriv, hn, if_true, lang, Language.mem_add, Language.mem_mul, iha, ihb]
      constructor
      · rintro (⟨u, hu, v, hv, rfl⟩ | h)
        · exact Or.inr ⟨u, v, rfl, hu, hv⟩
        · exact Or.inl ⟨(nullable_iff a).mp hn, h⟩
      · rintro (⟨-, h⟩ | ⟨u, v, rfl, hu, hv⟩)
        · exact Or.inr h
        · exact Or.inl ⟨u, hu, v, hv, rfl⟩
    · have hnil : [] ∉ a.lang := fun h => hn ((nullable_iff a).mpr h)
      simp only [deriv, hn, lang, Language.mem_mul, iha]
      constructor
      · rintro ⟨u, hu, v, hv, rfl⟩
        exact Or.inr ⟨u, v, rfl, hu, hv⟩
      · rintro (⟨h, -⟩ | ⟨u, v, rfl, hu, hv⟩)
        · exact absurd h hnil
        · exact ⟨u, hu, v, hv, rfl⟩
  | star a iha =>
    intro w
    rw [lang, cons_mem_kstar]
    simp only [deriv, lang, Language.mem_mul, iha]
    constructor
    · rintro ⟨u, hu, v, hv, rfl⟩; exact ⟨u, v, rfl, hu, hv⟩
    · rintro ⟨u, v, rfl, hu, hv⟩; exact ⟨u, hu, v, hv, rfl⟩

theorem rmatch_iff (r : Regex) (w : List Char) : r.rmatch w = true ↔ w ∈ r.lang := by
  induction w generalizing r with
  | nil => exact nullable_iff r
  | cons c w ih => rw [rmatch, ih, deriv_lang]

end Regex


/-! ## The email pattern -/

theorem mem_star_cls (p : Char → Bool) (w : List Char) :
    w ∈ (Regex.star (.cls p)).lang ↔ ∀ c ∈ w, p c = true := by
  induction w with
  | nil => simp [Regex.lang, Language.nil_mem_kstar]
  | cons c w ih =>
    rw [Regex.lang, Regex.cons_mem_kstar]
    simp only [List.mem_cons, forall_eq_or_imp]
    constructor
    · rintro ⟨u, v, rfl, ⟨d, hd, hcu⟩, hv⟩
      simp only [List.cons.injEq] at hcu
      obtain ⟨rfl, rfl⟩ := hcu
      exact ⟨hd, ih.mp hv⟩
    · rintro ⟨hc, hw⟩
      exact ⟨[], w, rfl, ⟨c, hc, rfl⟩, ih.mpr hw⟩

theorem mem_plus_cls (p : Char → Bool) (w : List Char) :
    w ∈ (Regex.plus (.cls p)).lang ↔ w ≠ [] ∧ ∀ c ∈ w, p c = true := by
  cases w with
  | nil =>
    simp only [ne_eq, not_true_eq_false, false_and, iff_false]
    intro h
    have := (Regex.nullable_iff _).mpr h
    simp [Regex.plus, Regex.nullable] at this
  | cons c w =>
    rw [Regex.plus, Regex.lang, Regex.cons_mem_mul]
    simp only [ne_eq, reduceCtorEq, not_false_eq_true, true_and, List.mem_cons, forall_eq_or_imp]
    constructor
    · rintro (⟨⟨d, -, h⟩, -⟩ | ⟨u, v, rfl, ⟨d, hd, hcu⟩, hv⟩)
      · cases h
      · simp only [List.cons.injEq] at hcu
        obtain ⟨rfl, rfl⟩ := hcu
        exact ⟨hd, (mem_star_cls p _).mp hv⟩
    · rintro ⟨hc, hw⟩
      exact Or.inr ⟨[], w, rfl, ⟨c, hc, rfl⟩, (mem_star_cls p w).mpr hw⟩

theorem mem_plus_cls_isRun (w : List Char) :
    w ∈ (Regex.plus (.cls notSpaceAt)).lang ↔ IsRun w := mem_plus_cls notSpaceAt w

theorem mem_cls_eq (a : Char) (w : List Char) :
    w ∈ (Regex.cls (· == a)).lang ↔ w = [a] := by
  simp only [Regex.lang]
  constructor
  · rintro ⟨c, hc, rfl⟩
    simp only [beq_iff_eq] at hc
    rw [hc]
  · rintro rfl
    exact ⟨a, by simp, rfl⟩

theorem emailRegex_lang (w : List Char) : w ∈ emailRegex.lang ↔ EmailShape w := by
  unfold emailRegex EmailShape
  rw [Regex.lang, Language.mem_mul]
  constructor
  · rintro ⟨l, hl, x, hx, rfl⟩
    rw [Regex.lang, Language.mem_mul] at hx
    obtain ⟨a, ha, y, hy, rfl⟩ := hx
    rw [Regex.lang, Language.mem_mul] at hy
    obtain ⟨d1, hd1, z, hz, rfl⟩ := hy
    rw [Regex.lang, Language.mem_mul] at hz
    obtain ⟨dot, hdot, d2, hd2, rfl⟩ := hz
    rw [mem_cls_eq] at ha hdot
    subst ha hdot
    exact ⟨l, d1, d2, by simp, (mem_plus_cls_isRun l).mp hl, (mem_plus_cls_isRun d1).mp hd1,
      (mem_plus_cls_isRun d2).mp hd2⟩
  · rintro ⟨l, d1, d2, rfl, hl, hd1, hd2⟩
    refine ⟨l, (mem_plus_cls_isRun l).mpr hl, _, ?_, rfl⟩
    rw [Regex.lang]
    refine Language.append_mem_mul (a := ['@']) ((mem_cls_eq _ _).mpr rfl) ?_
    rw [Regex.lang]
    refine Language.append_mem_mul ((mem_plus_cls_isRun d1).mpr hd1) ?_
    rw [Regex.lang]
    exact Language.append_mem_mul (a := ['.']) ((mem_cls_eq _ _).mpr rfl)
      ((mem_plus_cls_isRun d2).mpr hd2)

theorem emailTest_iff_shape (s : String) : emailTest s = true ↔ EmailShape s.data := by
  rw [emailTest, Regex.rmatch_iff, emailRegex_lang]


/-- C4 (amended): the email format check passes exactly for the strings
`local@d1.d2` in which `local`, `d1` and `d2` are non-empty and hold neither
white space nor `@`. -/
theorem emailTest_accepts_exactly_shape (s : String) :
    emailTest s = true ↔ EmailShape s.data :=
  emailTest_iff_shape s

/-- C4 (counterexample): `a@.b` and `a@b@c.d` have a non-empty local part, an
`@`, a domain containing a `.` and no white space, yet the pattern rejects
both and `validateEmployee` answers 'Invalid email format'. -/
theorem spec_email_shape_rejected :
    SpecEmailShape "a@.b".data ∧ emailTest "a@.b" = false ∧
    SpecEmailShape "a@b@c.d".data ∧ emailTest "a@b@c.d" = false ∧
    validateEmployee ⟨.str "Ann", .str "a@.b", .str "Dev"⟩
      = .reject 400 "Invalid email format" := by
  refine ⟨⟨by decide, ['a'], ['.', 'b'], rfl, by decide, by decide⟩, by decide,
    ⟨by decide, ['a'], ['b', '@', 'c', '.', 'd'], rfl, by decide, by decide⟩, by decide,
    by decide⟩

/-! ## Validation -/

theorem missingOrBlank_str (s : String) :
    missingOrBlank (.str s) = some (jsTrim s == "") := by
  by_cases h : s = ""
  · subst h; decide
  · simp [missingOrBlank, JVal.truthy, JVal.callTrim, h]

theorem missingOrBlank_of_absentOrStr (v : JVal) (h : v.absentOrStr = true) :
    missingOrBlank v = some v.isBlank := by
  cases v with
  | absent => rfl
  | str s => exact missingOrBlank_str s
  | null => cases h
  | bool b => cases h
  | num n => cases h
  | arr a => cases h
  | obj o => cases h

theorem missingOrBlank_of_strOrFalsy (v : JVal) (h : v.strOrFalsy = true) :
    ∃ b, missingOrBlank v = some b := by
  cases v with
  | str s => exact ⟨_, missingOrBlank_str s⟩
  | absent => exact ⟨true, rfl⟩
  | null => exact ⟨true, rfl⟩
  | bool b =>
    cases b with
    | false => exact ⟨true, rfl⟩
    | true => cases h
  | num n =>
    refine ⟨true, ?_⟩
    simp only [JVal.strOrFalsy] at h
    simp [missingOrBlank, h]
  | arr a => cases h
  | obj o => cases h

/-- C1: on a body whose name, email and position are each absent or a string,
`validateEmployee` answers the first failing reason in the order name, email
presence, email format, position, and otherwise passes the request on. -/
theorem validateEmployee_first_failure (b : Body)
    (hn : b.name.absentOrStr = true) (he : b.email.absentOrStr = true)
    (hp : b.position.absentOrStr = true) :
    validateEmployee b =
      if b.name.isBlank then .reject 400 "Name is required"
      else if b.email.isBlank then .reject 400 "Email is required"
      else if !b.email.emailTest then .reject 400 "Invalid email format"
      else if b.position.isBlank then .reject 400 "Position is required"
      else .next := by
  unfold validateEmployee
  rw [missingOrBlank_of_absentOrStr _ hn, missingOrBlank_of_absentOrStr _ he,
    missingOrBlank_of_absentOrStr _ hp]
  cases b.name.isBlank <;> cases b.email.isBlank <;> cases b.email.emailTest <;>
    cases b.position.isBlank <;> rfl

theorem validateEmployee_first_failure_witness :
    validateEmployee ⟨.str "John Doe", .str "john.doe@example.com", .absent⟩
      = .reject 400 "Position is required" :=
  (validateEmployee_first_failure
    ⟨.str "John Doe", .str "john.doe@example.com", .absent⟩ rfl rfl rfl).trans (by decide)

/-- C3 (counterexample): a body whose name is the number 5 makes `name.trim()`
throw; the request is answered by the error middleware with 500. -/
theorem validateEmployee_throws_on_number :
    validateEmployee ⟨.num 5, .str "x@y.com", .str "Dev"⟩ = .throw ∧
    createEmployee Store.init ⟨.num 5, .str "x@y.com", .str "Dev"⟩ 0 none none
      = (Store.init, ⟨500, .error "Internal server error"⟩) := by
  constructor <;> decide

/-- C3 (amended): on a body whose name, email and position each hold a string
or a falsy value (absent, `null`, `false`, `0`), `validateEmployee` does not
throw: it answers 400 with one of the four reasons or passes the request on. -/
theorem validateEmployee_total_on_str_or_falsy (b : Body)
    (hn : b.name.strOrFalsy = true) (he : b.email.strOrFalsy = true)
    (hp : b.position.strOrFalsy = true) :
    validateEmployee b = .next ∨
      ∃ m ∈ validationReasons, validateEmployee b = .reject 400 m := by
  obtain ⟨x, hx⟩ := missingOrBlank_of_strOrFalsy _ hn
  obtain ⟨y, hy⟩ := missingOrBlank_of_strOrFalsy _ he
  obtain ⟨z, hz⟩ := missingOrBlank_of_strOrFalsy _ hp
  unfold validateEmployee
  rw [hx, hy, hz]
  cases x <;> cases y <;> cases b.email.emailTest <;> cases z <;>
    simp [validationReasons]

theorem validateEmployee_total_on_str_or_falsy_witness :
    validateEmployee ⟨.null, .num 0, .bool false⟩ = .next ∨
      ∃ m ∈ validationReasons,
        validateEmployee ⟨.null, .num 0, .bool false⟩ = .reject 400 m :=
  validateEmployee_total_on_str_or_falsy ⟨.null, .num 0, .bool false⟩ rfl rfl rfl


/-! ## Trimming -/

theorem dropWhile_eq_self_of_all {w : List Char} (h : ∀ c ∈ w, isJsSpace c = false) :
    w.dropWhile isJsSpace = w := by
  cases w with
  | nil => rfl
  | cons c w => simp [List.dropWhile, h c (List.mem_cons_self _ _)]

theorem trimChars_eq_self {w : List Char} (h : ∀ c ∈ w, isJsSpace c = false) :
    trimChars w = w := by
  unfold trimChars
  rw [dropWhile_eq_self_of_all h, dropWhile_eq_self_of_all, List.reverse_reverse]
  intro c hc
  exact h c (List.mem_reverse.mp hc)

theorem notSpaceAt_not_space {c : Char} (h : notSpaceAt c = true) : isJsSpace c = false := by
  unfold notSpaceAt at h
  cases hs : isJsSpace c
  · rfl
  · rw [hs] at h; simp at h

theorem EmailShape.no_space {w : List Char} (h : EmailShape w) :
    ∀ c ∈ w, isJsSpace c = false := by
  obtain ⟨l, d1, d2, rfl, hl, hd1, hd2⟩ := h
  intro c hc
  simp only [List.mem_append, List.mem_cons] at hc
  rcases hc with hc | rfl | hc | rfl | hc
  · exact notSpaceAt_not_space (hl.2 c hc)
  · decide
  · exact notSpaceAt_not_space (hd1.2 c hc)
  · decide
  · exact notSpaceAt_not_space (hd2.2 c hc)

theorem jsTrim_of_emailTest {e : String} (h : emailTest e = true) : jsTrim e = e := by
  have hs := ((emailTest_iff_shape e).mp h).no_space
  unfold jsTrim
  rw [trimChars_eq_self hs]

theorem missingOrBlank_false {v : JVal} (h : missingOrBlank v = some false) :
    ∃ s, v = .str s ∧ jsTrim s ≠ "" := by
  cases v with
  | str s =>
    rw [missingOrBlank_str] at h
    refine ⟨s, rfl, ?_⟩
    simpa using h
  | absent => cases h
  | null => cases h
  | bool x => cases x <;> cases h
  | num x =>
    by_cases hx : x = 0
    · subst hx; cases h
    · simp [missingOrBlank, JVal.truthy, JVal.callTrim, hx] at h
  | arr x => cases h
  | obj x => cases h

/-- What a body that passes validation looks like. -/
theorem validateEmployee_next {b : Body} (h : validateEmployee b = .next) :
    ∃ n e p, b = ⟨.str n, .str e, .str p⟩ ∧ jsTrim n ≠ "" ∧ emailTest e = true ∧
      jsTrim e = e ∧ jsTrim p ≠ "" := by
  obtain ⟨bn, be, bp⟩ := b
  unfold validateEmployee at h
  simp only at h
  split at h
  · cases h
  · cases h
  · rename_i hn
    split at h
    · cases h
    · cases h
    · rename_i he
      split at h
      · cases h
      · rename_i ht
        split at h
        · cases h
        · cases h
        · rename_i hp
          obtain ⟨n, rfl, hn1⟩ := missingOrBlank_false hn
          obtain ⟨e, rfl, -⟩ := missingOrBlank_false he
          obtain ⟨p, rfl, hp1⟩ := missingOrBlank_false hp
          have ht1 : emailTest e = true := by simpa [JVal.emailTest] using ht
          exact ⟨n, e, p, rfl, hn1, ht1, jsTrim_of_emailTest ht1, hp1⟩


/-! ## The store: fresh rowids and successful statements -/

theorem foldl_max_id (rows : List Employee) :
    ∀ m : Nat, m ≤ rows.foldl (fun m r => max m r.id) m ∧
      ∀ r ∈ rows, r.id ≤ rows.foldl (fun m r => max m r.id) m := by
  induction rows with
  | nil => intro m; simp
  | cons a rows ih =>
    intro m
    obtain ⟨h1, h2⟩ := ih (max m a.id)
    simp only [List.foldl_cons, List.mem_cons, forall_eq_or_imp]
    exact ⟨le_trans (le_max_left _ _) h1, le_trans (le_max_right _ _) h1, h2⟩

theorem id_lt_nextId (st : Store) : ∀ r ∈ st.rows, r.id < st.nextId := by
  intro r hr
  exact Nat.lt_succ_of_le ((foldl_max_id st.rows st.seq).2 r hr)

theorem hasKey_iff (key : Option Nat) (r : Employee) :
    r.hasKey key = true ↔ key = some r.id := by
  simp [Employee.hasKey]

theorem find_inserted (st : Store) (row : Employee) (h : row.id = st.nextId) :
    (st.rows ++ [row]).find? (Employee.hasKey (some st.nextId)) = some row := by
  have hnone : st.rows.find? (Employee.hasKey (some st.nextId)) = none := by
    rw [List.find?_eq_none]
    intro r hr hk
    have := id_lt_nextId st r hr
    rw [hasKey_iff] at hk
    simp only [Option.some.injEq] at hk
    omega
  rw [List.find?_append, hnone]
  simp [List.find?, Employee.hasKey, h]

theorem any_email_false {rows : List Employee} {e : String} (h : ∀ r ∈ rows, r.email ≠ e) :
    rows.any (fun r => r.email == e) = false := by
  rw [List.any_eq_false]
  intro r hr
  simpa using h r hr

theorem createEmployee_success (st : Store) (n e p : String) (now : Nat)
    (hv : validateEmployee ⟨.str n, .str e, .str p⟩ = .next)
    (hfresh : ∀ r ∈ st.rows, r.email ≠ jsTrim e) :
    createEmployee st ⟨.str n, .str e, .str p⟩ now none none =
      (⟨st.rows ++ [st.newRow (jsTrim n) (jsTrim e) (jsTrim p) now], st.nextId⟩,
       ⟨201, .record (st.newRow (jsTrim n) (jsTrim e) (jsTrim p) now)⟩) := by
  unfold createEmployee
  rw [hv]
  simp only [JVal.callTrim, sqlInsert, any_email_false hfresh, Bool.false_eq_true, if_false,
    sqlSelectById]
  rw [find_inserted st _ rfl]
  rfl

theorem createEmployee_duplicate (st : Store) (n e p : String) (now : Nat)
    (fault2 : Option String)
    (hv : validateEmployee ⟨.str n, .str e, .str p⟩ = .next)
    (hdup : ∃ r ∈ st.rows, r.email = jsTrim e) :
    createEmployee st ⟨.str n, .str e, .str p⟩ now none fault2 =
      (st, ⟨400, .error "Email already exists"⟩) := by
  have hany : st.rows.any (fun r => r.email == jsTrim e) = true := by
    rw [List.any_eq_true]
    obtain ⟨r, hr, hre⟩ := hdup
    exact ⟨r, hr, by simpa using hre⟩
  have hinc : jsIncludes uniqueViolation "UNIQUE constraint failed" = true := by decide
  unfold createEmployee
  rw [hv]
  simp only [JVal.callTrim, sqlInsert, hany, if_true, hinc]


/-! ## Create -/

/-- C5: in any store, creating a valid body whose trimmed email is not yet
stored answers 201 with a record under a generated id that no stored record
has, and a get-by-id on a path naming that id then answers 200 with a record
of that id holding the trimmed name, email and position. -/
theorem create_then_get_by_id (κ : RowidOf) (st : Store) (b : Body) (now : Nat)
    (path : String)
    (hv : validateEmployee b = .next)
    (hfresh : ∀ r ∈ st.rows, some r.email ≠ b.email.callTrim)
    (hpath : κ path = some st.nextId) :
    ∃ row row2,
      (createEmployee st b now none none).2 = ⟨201, .record row⟩ ∧
      row.id = st.nextId ∧ (∀ r ∈ st.rows, r.id ≠ row.id) ∧
      (getEmployee κ (createEmployee st b now none none).1 path none).2
        = ⟨200, .record row2⟩ ∧
      row2.id = row.id ∧ b.name.callTrim = some row2.name ∧
      b.email.callTrim = some row2.email ∧ b.position.callTrim = some row2.position := by
  obtain ⟨n, e, p, rfl, -, -, -, -⟩ := validateEmployee_next hv
  have hf : ∀ r ∈ st.rows, r.email ≠ jsTrim e := by
    intro r hr h
    exact hfresh r hr (by simp [JVal.callTrim, h])
  refine ⟨st.newRow (jsTrim n) (jsTrim e) (jsTrim p) now,
    st.newRow (jsTrim n) (jsTrim e) (jsTrim p) now, ?_, rfl, ?_, ?_, rfl, rfl, rfl, rfl⟩
  · rw [createEmployee_success st n e p now hv hf]
  · intro r hr h
    have := id_lt_nextId st r hr
    simp only [Store.newRow] at h
    omega
  · rw [createEmployee_success st n e p now hv hf]
    simp only [getEmployee, sqlSelectById, hpath]
    rw [find_inserted st _ rfl]

theorem create_then_get_by_id_witness :
    ∃ row row2,
      (createEmployee Store.init
          ⟨.str " John Doe ", .str "john.doe@example.com", .str "Dev\n"⟩ 7 none none).2
        = ⟨201, .record row⟩ ∧
      row.id = Store.init.nextId ∧ (∀ r ∈ Store.init.rows, r.id ≠ row.id) ∧
      (getEmployee decimalRowid
          (createEmployee Store.init
            ⟨.str " John Doe ", .str "john.doe@example.com", .str "Dev\n"⟩ 7 none none).1
          "1" none).2 = ⟨200, .record row2⟩ ∧
      row2.id = row.id ∧
      (JVal.str " John Doe ").callTrim = some row2.name ∧
      (JVal.str "john.doe@example.com").callTrim = some row2.email ∧
      (JVal.str "Dev\n").callTrim = some row2.position :=
  create_then_get_by_id decimalRowid Store.init
    ⟨.str " John Doe ", .str "john.doe@example.com", .str "Dev\n"⟩ 7 "1"
    (by decide) (by decide) (by decide)

/-- C6: creating a valid body whose email is not yet stored appends exactly
one record, holding the trimmed name, email and position, a generated id and
the insertion time, and answers 201 with that record; fields submitted without
leading or trailing white space come back unchanged. -/
theorem create_inserts_and_echoes (st : Store) (b : Body) (now : Nat)
    (hv : validateEmployee b = .next)
    (hfresh : ∀ r ∈ st.rows, some r.email ≠ b.email.callTrim) :
    ∃ row,
      createEmployee st b now none none = (⟨st.rows ++ [row], row.id⟩, ⟨201, .record row⟩) ∧
      b.name.callTrim = some row.name ∧ b.email.callTrim = some row.email ∧
      b.position.callTrim = some row.position ∧
      row.id = st.nextId ∧ row.created_at = now ∧ row.updated_at = now ∧
      (∀ n e p, b = ⟨.str n, .str e, .str p⟩ → jsTrim n = n → jsTrim e = e → jsTrim p = p →
        row.name = n ∧ row.email = e ∧ row.position = p) := by
  obtain ⟨n, e, p, rfl, -, -, -, -⟩ := validateEmployee_next hv
  have hf : ∀ r ∈ st.rows, r.email ≠ jsTrim e := by
    intro r hr h
    exact hfresh r hr (by simp [JVal.callTrim, h])
  refine ⟨st.newRow (jsTrim n) (jsTrim e) (jsTrim p) now,
    createEmployee_success st n e p now hv hf, rfl, rfl, rfl, rfl, rfl, rfl, ?_⟩
  intro n1 e1 p1 hb hn he hp
  simp only [Body.mk.injEq, JVal.str.injEq] at hb
  obtain ⟨rfl, rfl, rfl⟩ := hb
  exact ⟨hn, he, hp⟩

theorem create_inserts_and_echoes_witness :
    ∃ row,
      createEmployee Store.init johnBody 7 none none
        = (⟨Store.init.rows ++ [row], row.id⟩, ⟨201, .record row⟩) ∧
      johnBody.name.callTrim = some row.name ∧ johnBody.email.callTrim = some row.email ∧
      johnBody.position.callTrim = some row.position ∧
      row.id = Store.init.nextId ∧ row.created_at = 7 ∧ row.updated_at = 7 ∧
      (∀ n e p, johnBody = ⟨.str n, .str e, .str p⟩ → jsTrim n = n → jsTrim e = e →
        jsTrim p = p → row.name = n ∧ row.email = e ∧ row.position = p) :=
  create_inserts_and_echoes Store.init johnBody 7 (by decide) (by decide)

/-- C7: from a store without email `e`, two valid creates carrying `e` give 201
for the first and 400 'Email already exists' for the second, and the store
then holds exactly one record with email `e`: the one the first request made. -/
theorem second_create_same_email_conflicts (st : Store) (b1 b2 : Body) (e : String)
    (t1 t2 : Nat)
    (hv1 : validateEmployee b1 = .next) (hv2 : validateEmployee b2 = .next)
    (he1 : b1.email = .str e) (he2 : b2.email = .str e)
    (hfresh : ∀ r ∈ st.rows, r.email ≠ e) :
    ∃ row,
      (createEmployee st b1 t1 none none).2 = ⟨201, .record row⟩ ∧
      (createEmployee (createEmployee st b1 t1 none none).1 b2 t2 none none).2
        = ⟨400, .error "Email already exists"⟩ ∧
      (createEmployee (createEmployee st b1 t1 none none).1 b2 t2 none none).1.rows
        = st.rows ++ [row] ∧
      (st.rows ++ [row]).filter (fun r => r.email == e) = [row] ∧
      row.email = e ∧ b1.name.callTrim = some row.name ∧
      b1.position.callTrim = some row.position := by
  obtain ⟨n1, e1, p1, rfl, -, -, ht1, -⟩ := validateEmployee_next hv1
  obtain ⟨n2, e2, p2, rfl, -, -, ht2, -⟩ := validateEmployee_next hv2
  simp only [JVal.str.injEq] at he1 he2
  subst he1
  subst he2
  have hf : ∀ r ∈ st.rows, r.email ≠ jsTrim e2 := by rw [ht1]; exact hfresh
  have hc1 := createEmployee_success st n1 e2 p1 t1 hv1 hf
  refine ⟨st.newRow (jsTrim n1) (jsTrim e2) (jsTrim p1) t1, ?_, ?_, ?_, ?_, ht1, rfl, rfl⟩
  · rw [hc1]
  · rw [hc1, createEmployee_duplicate _ n2 e2 p2 t2 none hv2]
    exact ⟨_, List.mem_append_right _ (List.mem_singleton_self _), rfl⟩
  · rw [hc1, createEmployee_duplicate _ n2 e2 p2 t2 none hv2]
    exact ⟨_, List.mem_append_right _ (List.mem_singleton_self _), rfl⟩
  · rw [List.filter_append]
    have h0 : st.rows.filter (fun r => r.email == e2) = [] := by
      rw [List.filter_eq_nil_iff]
      intro r hr
      simpa using hfresh r hr
    rw [h0]
    simp [Store.newRow, ht1]

theorem second_create_same_email_conflicts_witness :
    ∃ row,
      (createEmployee Store.init johnBody 7 none none).2 = ⟨201, .record row⟩ ∧
      (createEmployee (createEmployee Store.init johnBody 7 none none).1
          ⟨.str "Jane Doe", .str "john.doe@example.com", .str "Designer"⟩ 8 none none).2
        = ⟨400, .error "Email already exists"⟩ ∧
      (createEmployee (createEmployee Store.init johnBody 7 none none).1
          ⟨.str "Jane Doe", .str "john.doe@example.com", .str "Designer"⟩ 8 none none).1.rows
        = Store.init.rows ++ [row] ∧
      (Store.init.rows ++ [row]).filter (fun r => r.email == "john.doe@example.com") = [row] ∧
      row.email = "john.doe@example.com" ∧ johnBody.name.callTrim = some row.name ∧
      johnBody.position.callTrim = some row.position :=
  second_create_same_email_conflicts Store.init johnBody
    ⟨.str "Jane Doe", .str "john.doe@example.com", .str "Designer"⟩ "john.doe@example.com" 7 8
    (by decide) (by decide) rfl rfl (by decide)


/-! ## Update on an id that names no record -/

theorem no_match_any {key : Option Nat} {rows : List Employee}
    (h : ∀ r ∈ rows, key ≠ some r.id) : rows.any (Employee.hasKey key) = false := by
  rw [List.any_eq_false]
  intro r hr hk
  exact h r hr ((hasKey_iff key r).mp hk)

theorem no_match_map {key : Option Nat} {rows : List Employee} (f : Employee → Employee)
    (h : ∀ r ∈ rows, key ≠ some r.id) :
    rows.map (fun r => if r.hasKey key then f r else r) = rows := by
  conv_rhs => rw [← List.map_id rows]
  apply List.map_congr_left
  intro r hr
  have : r.hasKey key = false := by
    cases hk : r.hasKey key
    · rfl
    · exact absurd ((hasKey_iff key r).mp hk) (h r hr)
  simp [this]

theorem no_match_countP {key : Option Nat} {rows : List Employee}
    (h : ∀ r ∈ rows, key ≠ some r.id) : rows.countP (Employee.hasKey key) = 0 := by
  rw [List.countP_eq_zero]
  intro r hr hk
  exact h r hr ((hasKey_iff key r).mp hk)

/-- C2 (amended): on an id that names no stored record, update answers 404
'Employee not found' for every body that passes validation and leaves the
store as it was; a body that fails validation is answered with the validation
error before the id is looked at. -/
theorem update_unknown_id (κ : RowidOf) (st : Store) (id : String) (b : Body) (now : Nat)
    (hid : ∀ r ∈ st.rows, κ id ≠ some r.id) :
    (validateEmployee b = .next →
      updateEmployee κ st id b now none none = (st, ⟨404, .error "Employee not found"⟩)) ∧
    (∀ status msg fault fault2, validateEmployee b = .reject status msg →
      updateEmployee κ st id b now fault fault2 = (st, ⟨status, .error msg⟩)) := by
  constructor
  · intro hv
    obtain ⟨n, e, p, rfl, -, -, -, -⟩ := validateEmployee_next hv
    unfold updateEmployee
    rw [hv]
    simp only [JVal.callTrim, sqlUpdate, no_match_any hid, Bool.false_and, Bool.false_eq_true,
      if_false, no_match_countP hid, if_true, no_match_map _ hid]
  · intro status msg fault fault2 hv
    unfold updateEmployee
    rw [hv]

theorem update_unknown_id_witness :
    updateEmployee decimalRowid (createEmployee Store.init johnBody 7 none none).1 "999"
        ⟨.str "John Smith", .str "john.smith@example.com", .str "Senior Software Developer"⟩
        9 none none
      = ((createEmployee Store.init johnBody 7 none none).1,
          ⟨404, .error "Employee not found"⟩) :=
  (update_unknown_id decimalRowid (createEmployee Store.init johnBody 7 none none).1 "999"
    ⟨.str "John Smith", .str "john.smith@example.com", .str "Senior Software Developer"⟩ 9
    (by decide)).1 (by decide)

/-- C2 (counterexample): with no record stored, an update of id 999 whose body
has a malformed email is answered 400 'Invalid email format', not 404. -/
theorem update_unknown_id_invalid_body :
    (∀ r ∈ Store.init.rows, decimalRowid "999" ≠ some r.id) ∧
    updateEmployee decimalRowid Store.init "999"
        ⟨.str "John Smith", .str "invalid-email", .str "Developer"⟩ 9 none none
      = (Store.init, ⟨400, .error "Invalid email format"⟩) := by
  constructor <;> decide

/-! ## Uniqueness of emails -/

theorem sqlInsert_wf {st st1 : Store} {n e p : String} {now id : Nat} {fault : Option String}
    (hwf : st.WF) (h : sqlInsert st n e p now fault = .ok (st1, id)) : st1.WF := by
  unfold sqlInsert at h
  cases fault with
  | some msg => cases h
  | none =>
    simp only at h
    split at h
    · cases h
    · rename_i hany
      simp only [Except.ok.injEq, Prod.mk.injEq] at h
      obtain ⟨rfl, -⟩ := h
      simp only [Bool.not_eq_true, List.any_eq_false, beq_iff_eq] at hany
      refine ⟨?_, ?_⟩
      · simp only [List.map_append, List.map_cons, List.map_nil]
        rw [List.nodup_append]
        refine ⟨hwf.1, List.nodup_singleton _, ?_⟩
        intro x hx hx1
        simp only [List.mem_singleton] at hx1
        subst hx1
        obtain ⟨r, hr, hre⟩ := List.mem_map.mp hx
        exact hany r hr hre
      · simp only [List.map_append, List.map_cons, List.map_nil]
        rw [List.nodup_append]
        refine ⟨hwf.2, List.nodup_singleton _, ?_⟩
        intro x hx hx1
        simp only [List.mem_singleton] at hx1
        subst hx1
        obtain ⟨r, hr, hre⟩ := List.mem_map.mp hx
        have := id_lt_nextId st r hr
        omega

theorem sqlDelete_wf {st st1 : Store} {key : Option Nat} {k : Nat} {fault : Option String}
    (hwf : st.WF) (h : sqlDelete st key fault = .ok (st1, k)) : st1.WF := by
  unfold sqlDelete at h
  cases fault with
  | some msg => cases h
  | none =>
    simp only [Except.ok.injEq, Prod.mk.injEq] at h
    obtain ⟨rfl, -⟩ := h
    exact ⟨hwf.1.sublist ((List.filter_sublist _).map _),
      hwf.2.sublist ((List.filter_sublist _).map _)⟩


theorem update_rows_ids (key : Option Nat) (n e p : String) (now : Nat)
    (rows : List Employee) :
    (rows.map (fun r =>
        if r.hasKey key then
          { r with name := n, email := e, position := p, updated_at := now }
        else r)).map Employee.id = rows.map Employee.id := by
  rw [List.map_map]
  apply List.map_congr_left
  intro r _
  simp only [Function.comp]
  split <;> rfl

theorem update_rows_emails_nodup (key : Option Nat) (n e p : String) (now : Nat) :
    ∀ rows : List Employee,
      (rows.map Employee.email).Nodup → (rows.map Employee.id).Nodup →
      (∀ r ∈ rows, r.hasKey key = false → r.email ≠ e) →
      ((rows.map (fun r =>
          if r.hasKey key then
            { r with name := n, email := e, position := p, updated_at := now }
          else r)).map Employee.email).Nodup := by
  intro rows
  induction rows with
  | nil => intro _ _ _; simp
  | cons a rows ih =>
    intro hem hid hno
    simp only [List.map_cons, List.nodup_cons] at hem hid
    have hno1 : ∀ r ∈ rows, r.hasKey key = false → r.email ≠ e :=
      fun r hr => hno r (List.mem_cons_of_mem _ hr)
    have ih1 := ih hem.2 hid.2 hno1
    simp only [List.map_cons, List.nodup_cons]
    refine ⟨?_, ih1⟩
    intro hmem
    obtain ⟨r1, hr1, hr1e⟩ := List.mem_map.mp hmem
    obtain ⟨r, hr, rfl⟩ := List.mem_map.mp hr1
    cases ha : a.hasKey key with
    | true =>
      cases hr0 : r.hasKey key with
      | true =>
        have h1 := (hasKey_iff key a).mp ha
        have h2 := (hasKey_iff key r).mp hr0
        rw [h1] at h2
        simp only [Option.some.injEq] at h2
        exact hid.1 (List.mem_map.mpr ⟨r, hr, h2.symm⟩)
      | false =>
        simp only [ha, hr0, if_true, Bool.false_eq_true, if_false] at hr1e
        exact hno1 r hr hr0 hr1e
    | false =>
      cases hr0 : r.hasKey key with
      | true =>
        simp only [ha, hr0, if_true, Bool.false_eq_true, if_false] at hr1e
        exact hno a (List.mem_cons_self _ _) ha hr1e.symm
      | false =>
        simp only [ha, hr0, Bool.false_eq_true, if_false] at hr1e
        exact hem.1 (List.mem_map.mpr ⟨r, hr, hr1e⟩)

theorem sqlUpdate_wf {st st1 : Store} {n e p : String} {key : Option Nat} {now k : Nat}
    {fault : Option String} (hwf : st.WF)
    (h : sqlUpdate st n e p key now fault = .ok (st1, k)) : st1.WF := by
  unfold sqlUpdate at h
  cases fault with
  | some msg => cases h
  | none =>
    simp only at h
    split at h
    · cases h
    · rename_i hcond
      simp only [Except.ok.injEq, Prod.mk.injEq] at h
      obtain ⟨rfl, -⟩ := h
      refine ⟨?_, ?_⟩
      · by_cases hmatch : st.rows.any (Employee.hasKey key) = true
        · apply update_rows_emails_nodup key n e p now st.rows hwf.1 hwf.2
          intro r hr hk hre
          apply hcond
          rw [Bool.and_eq_true]
          refine ⟨hmatch, List.any_eq_true.mpr ⟨r, hr, ?_⟩⟩
          simp [hk, hre]
        · have hnone : ∀ r ∈ st.rows, key ≠ some r.id := by
            intro r hr hk
            exact hmatch (List.any_eq_true.mpr ⟨r, hr, (hasKey_iff key r).mpr hk⟩)
          simp only
          rw [no_match_map _ hnone]
          exact hwf.1
      · simp only
        rw [update_rows_ids]
        exact hwf.2

theorem createEmployee_wf (st : Store) (b : Body) (now : Nat) (fault fault2 : Option String)
    (hwf : st.WF) : (createEmployee st b now fault fault2).1.WF := by
  unfold createEmployee
  split
  · exact hwf
  · exact hwf
  · split
    · split
      · split <;> exact hwf
      · rename_i hins
        have := sqlInsert_wf hwf hins
        split <;> exact this
    · exact hwf

theorem updateEmployee_wf (κ : RowidOf) (st : Store) (id : String) (b : Body) (now : Nat)
    (fault fault2 : Option String) (hwf : st.WF) :
    (updateEmployee κ st id b now fault fault2).1.WF := by
  unfold updateEmployee
  split
  · exact hwf
  · exact hwf
  · split
    · split
      · split <;> exact hwf
      · rename_i hupd
        have := sqlUpdate_wf hwf hupd
        split
        · exact this
        · split <;> exact this
    · exact hwf

theorem deleteEmployee_wf (κ : RowidOf) (st : Store) (id : String) (fault : Option String)
    (hwf : st.WF) : (deleteEmployee κ st id fault).1.WF := by
  unfold deleteEmployee
  split
  · exact hwf
  · rename_i hdel
    have := sqlDelete_wf hwf hdel
    split <;> exact this

theorem listEmployees_store (st : Store) (fault : Option String) :
    (listEmployees st fault).1 = st := by
  unfold listEmployees
  split <;> rfl

theorem getEmployee_store (κ : RowidOf) (st : Store) (id : String) (fault : Option String) :
    (getEmployee κ st id fault).1 = st := by
  unfold getEmployee
  split <;> rfl

theorem handle_wf (κ : RowidOf) (st : Store) (env : Env) (req : Request) (hwf : st.WF) :
    (handle κ st env req).1.WF := by
  cases req with
  | list => simp only [handle, listEmployees_store]; exact hwf
  | get id => simp only [handle, getEmployee_store]; exact hwf
  | create b => exact createEmployee_wf st b env.now env.fault env.fault2 hwf
  | update id b => exact updateEmployee_wf κ st id b env.now env.fault env.fault2 hwf
  | delete id => exact deleteEmployee_wf κ st id env.fault hwf

theorem reachable_wf {κ : RowidOf} {st : Store} (h : Reachable κ st) : st.WF := by
  induction h with
  | init => exact ⟨List.nodup_nil, List.nodup_nil⟩
  | step env req _ ih => exact handle_wf κ _ env req ih

/-- C8: in every store state reachable from the empty table by requests to the
API, whatever their bodies, ids, times and store failures, no two records
share an email. -/
theorem reachable_emails_unique (κ : RowidOf) (st : Store) (h : Reachable κ st) :
    (st.rows.map Employee.email).Nodup :=
  (reachable_wf h).1

theorem reachable_emails_unique_witness :
    ((handle decimalRowid
        (handle decimalRowid Store.init ⟨7, none, none⟩ (.create johnBody)).1
        ⟨8, none, none⟩ (.create johnBody)).1.rows.map Employee.email).Nodup :=
  reachable_emails_unique decimalRowid _
    (.step ⟨8, none, none⟩ (.create johnBody)
      (.step ⟨7, none, none⟩ (.create johnBody) .init))


/-! ## List -/

/-- C9: on every store, list answers 200 with a rearrangement of the stored
records (each exactly once, nothing else) in which no record precedes one
created later; on an empty table the answer is the empty array. -/
theorem list_all_most_recent_first (st : Store) :
    (∃ rows, listEmployees st none = (st, ⟨200, .records rows⟩) ∧
      rows.Perm st.rows ∧
      rows.Pairwise (fun a b => b.created_at ≤ a.created_at)) ∧
    (∀ seq, listEmployees ⟨[], seq⟩ none = (⟨[], seq⟩, ⟨200, .records []⟩)) := by
  refine ⟨⟨st.rows.insertionSort createdDesc, rfl, List.perm_insertionSort _ _, ?_⟩, ?_⟩
  · exact List.sorted_insertionSort createdDesc st.rows
  · intro seq; rfl

/-- C10 (counterexample): three valid records with distinct emails created
within the same second come back in the order of their creation, not
reversed. -/
theorem list_same_second_keeps_order :
    (listEmployees
      (createEmployee
        (createEmployee
          (createEmployee Store.init ⟨.str "A", .str "a@x.io", .str "P"⟩ 5 none none).1
          ⟨.str "B", .str "b@x.io", .str "P"⟩ 5 none none).1
        ⟨.str "C", .str "c@x.io", .str "P"⟩ 5 none none).1 none).2
      = ⟨200, .records [⟨1, "A", "a@x.io", "P", 5, 5⟩, ⟨2, "B", "b@x.io", "P", 5, 5⟩,
          ⟨3, "C", "c@x.io", "P", 5, 5⟩]⟩ := by
  decide

/-- C10 (amended): three valid records with pairwise distinct emails created
in an empty store at strictly increasing store times are listed newest first:
the list is exactly the three created records in the order C, B, A. -/
theorem list_after_three_creates (a b c : Body) (ta tb tc : Nat)
    (hva : validateEmployee a = .next) (hvb : validateEmployee b = .next)
    (hvc : validateEmployee c = .next)
    (hab : a.email ≠ b.email) (hac : a.email ≠ c.email) (hbc : b.email ≠ c.email)
    (htab : ta < tb) (htbc : tb < tc) :
    ∃ ra rb rc,
      (createEmployee Store.init a ta none none).2 = ⟨201, .record ra⟩ ∧
      (createEmployee (createEmployee Store.init a ta none none).1 b tb none none).2
        = ⟨201, .record rb⟩ ∧
      (createEmployee
        (createEmployee (createEmployee Store.init a ta none none).1 b tb none none).1
        c tc none none).2 = ⟨201, .record rc⟩ ∧
      (listEmployees
        (createEmployee
          (createEmployee (createEmployee Store.init a ta none none).1 b tb none none).1
          c tc none none).1 none).2 = ⟨200, .records [rc, rb, ra]⟩ := by
  obtain ⟨na, ea, pa, rfl, -, -, hea, -⟩ := validateEmployee_next hva
  obtain ⟨nb, eb, pb, rfl, -, -, heb, -⟩ := validateEmployee_next hvb
  obtain ⟨nc, ec, pc, rfl, -, -, hec, -⟩ := validateEmployee_next hvc
  simp only [ne_eq, JVal.str.injEq] at hab hac hbc
  have h1 := createEmployee_success Store.init na ea pa ta hva
    (by intro r hr; cases hr)
  rw [h1]
  have h2 := createEmployee_success
    ⟨Store.init.rows ++ [Store.init.newRow (jsTrim na) (jsTrim ea) (jsTrim pa) ta],
      Store.init.nextId⟩ nb eb pb tb hvb
    (by
      intro r hr
      simp [Store.init] at hr
      subst hr
      simp only [Store.newRow, hea, heb]
      exact hab)
  rw [h2]
  have h3 := createEmployee_success
    ⟨(Store.init.rows ++ [Store.init.newRow (jsTrim na) (jsTrim ea) (jsTrim pa) ta]) ++
        [Store.newRow
          ⟨Store.init.rows ++ [Store.init.newRow (jsTrim na) (jsTrim ea) (jsTrim pa) ta],
            Store.init.nextId⟩ (jsTrim nb) (jsTrim eb) (jsTrim pb) tb],
      Store.nextId
        ⟨Store.init.rows ++ [Store.init.newRow (jsTrim na) (jsTrim ea) (jsTrim pa) ta],
          Store.init.nextId⟩⟩ nc ec pc tc hvc
    (by
      intro r hr
      simp [Store.init] at hr
      rcases hr with rfl | rfl
      · simp only [Store.newRow, hea, hec]; exact hac
      · simp only [Store.newRow, heb, hec]; exact hbc)
  rw [h3]
  refine ⟨_, _, _, rfl, rfl, rfl, ?_⟩
  have hba : ¬ tb ≤ ta := by omega
  have hcb : ¬ tc ≤ tb := by omega
  have hca : ¬ tc ≤ ta := by omega
  simp [listEmployees, sqlSelectAll, Store.init, List.insertionSort, List.orderedInsert,
    createdDesc, Store.newRow, hba, hcb, hca]

theorem list_after_three_creates_witness :
    ∃ ra rb rc,
      (createEmployee Store.init ⟨.str "A", .str "a@x.io", .str "P"⟩ 5 none none).2
        = ⟨201, .record ra⟩ ∧
      (createEmployee
        (createEmployee Store.init ⟨.str "A", .str "a@x.io", .str "P"⟩ 5 none none).1
        ⟨.str "B", .str "b@x.io", .str "P"⟩ 6 none none).2 = ⟨201, .record rb⟩ ∧
      (createEmployee
        (createEmployee
          (createEmployee Store.init ⟨.str "A", .str "a@x.io", .str "P"⟩ 5 none none).1
          ⟨.str "B", .str "b@x.io", .str "P"⟩ 6 none none).1
        ⟨.str "C", .str "c@x.io", .str "P"⟩ 7 none none).2 = ⟨201, .record rc⟩ ∧
      (listEmployees
        (createEmployee
          (createEmployee
            (createEmployee Store.init ⟨.str "A", .str "a@x.io", .str "P"⟩ 5 none none).1
            ⟨.str "B", .str "b@x.io", .str "P"⟩ 6 none none).1
          ⟨.str "C", .str "c@x.io", .str "P"⟩ 7 none none).1 none).2
        = ⟨200, .records [rc, rb, ra]⟩ :=
  list_after_three_creates ⟨.str "A", .str "a@x.io", .str "P"⟩
    ⟨.str "B", .str "b@x.io", .str "P"⟩ ⟨.str "C", .str "c@x.io", .str "P"⟩ 5 6 7
    (by decide) (by decide) (by decide) (by simp) (by simp) (by simp)
    (by decide) (by decide)


/-! ## Get by id -/

theorem find_hasKey_some {key : Option Nat} {rows : List Employee} {row : Employee}
    (h : rows.find? (Employee.hasKey key) = some row) : row ∈ rows ∧ key = some row.id :=
  ⟨List.mem_of_find?_eq_some h, (hasKey_iff key row).mp (List.find?_some h)⟩

theorem find_hasKey_exists {key : Option Nat} {rows : List Employee}
    (h : ∃ r ∈ rows, key = some r.id) : ∃ row, rows.find? (Employee.hasKey key) = some row := by
  cases hf : rows.find? (Employee.hasKey key) with
  | some row => exact ⟨row, rfl⟩
  | none =>
    obtain ⟨r, hr, hk⟩ := h
    rw [List.find?_eq_none] at hf
    exact absurd ((hasKey_iff key r).mpr hk) (hf r hr)

theorem find_hasKey_none {key : Option Nat} {rows : List Employee}
    (h : ∀ r ∈ rows, key ≠ some r.id) : rows.find? (Employee.hasKey key) = none := by
  rw [List.find?_eq_none]
  intro r hr hk
  exact h r hr ((hasKey_iff key r).mp hk)

/-- C11: get-by-id answers 200 with a stored record whose id is the one the
path names when such a record exists, and 404 'Employee not found' when none
exists; a record it returns is stored and never has another id; the store is
left as it was. -/
theorem get_by_id_found_or_missing (κ : RowidOf) (st : Store) (id : String) :
    ((∃ r ∈ st.rows, κ id = some r.id) →
      ∃ row, getEmployee κ st id none = (st, ⟨200, .record row⟩) ∧
        row ∈ st.rows ∧ κ id = some row.id) ∧
    ((∀ r ∈ st.rows, κ id ≠ some r.id) →
      getEmployee κ st id none = (st, ⟨404, .error "Employee not found"⟩)) ∧
    (∀ fault row, (getEmployee κ st id fault).2.body = .record row →
      row ∈ st.rows ∧ κ id = some row.id) := by
  refine ⟨?_, ?_, ?_⟩
  · intro h
    obtain ⟨row, hrow⟩ := find_hasKey_exists h
    refine ⟨row, ?_, find_hasKey_some hrow⟩
    simp only [getEmployee, sqlSelectById, hrow]
  · intro h
    simp only [getEmployee, sqlSelectById, find_hasKey_none h]
  · intro fault row h
    cases fault with
    | some msg => simp [getEmployee, sqlSelectById] at h
    | none =>
      cases hf : st.rows.find? (Employee.hasKey (κ id)) with
      | none => simp [getEmployee, sqlSelectById, hf] at h
      | some r =>
        simp only [getEmployee, sqlSelectById, hf, RespBody.record.injEq] at h
        subst h
        exact find_hasKey_some hf

/-! ## Delete -/

theorem countP_hasKey_pos {key : Option Nat} {rows : List Employee} {r : Employee}
    (hr : r ∈ rows) (hk : key = some r.id) : rows.countP (Employee.hasKey key) ≠ 0 := by
  rw [Ne, List.countP_eq_zero]
  intro h
  exact h r hr ((hasKey_iff key r).mpr hk)

theorem filter_not_hasKey_no_match (key : Option Nat) (rows : List Employee) :
    ∀ r ∈ rows.filter (fun r => !r.hasKey key), key ≠ some r.id := by
  intro r hr hk
  have := (List.mem_filter.mp hr).2
  rw [(hasKey_iff key r).mpr hk] at this
  simp at this

theorem no_match_filter {key : Option Nat} {rows : List Employee}
    (h : ∀ r ∈ rows, key ≠ some r.id) : rows.filter (fun r => !r.hasKey key) = rows := by
  rw [List.filter_eq_self]
  intro r hr
  cases hk : r.hasKey key
  · rfl
  · exact absurd ((hasKey_iff key r).mp hk) (h r hr)

theorem deleteEmployee_missing (κ : RowidOf) (st : Store) (id : String)
    (h : ∀ r ∈ st.rows, κ id ≠ some r.id) :
    deleteEmployee κ st id none = (st, ⟨404, .error "Employee not found"⟩) := by
  simp only [deleteEmployee, sqlDelete, no_match_countP h, if_true, no_match_filter h]

theorem deleteEmployee_found (κ : RowidOf) (st : Store) (id : String) (r : Employee)
    (hr : r ∈ st.rows) (hk : κ id = some r.id) :
    deleteEmployee κ st id none =
      (⟨st.rows.filter (fun r => !r.hasKey (κ id)), st.seq⟩,
       ⟨200, .deleted "Employee deleted successfully" id⟩) := by
  simp only [deleteEmployee, sqlDelete, countP_hasKey_pos hr hk, if_false]

/-- C14: deleting the id of a stored record twice in a row answers 200 and then
404 'Employee not found', the second request leaving the store as the first
left it; deleting an id that names no record answers 404 and changes nothing. -/
theorem delete_twice (κ : RowidOf) (st : Store) (id : String) :
    ((∃ r ∈ st.rows, κ id = some r.id) →
      (deleteEmployee κ st id none).2.status = 200 ∧
      deleteEmployee κ (deleteEmployee κ st id none).1 id none
        = ((deleteEmployee κ st id none).1, ⟨404, .error "Employee not found"⟩)) ∧
    ((∀ r ∈ st.rows, κ id ≠ some r.id) →
      deleteEmployee κ st id none = (st, ⟨404, .error "Employee not found"⟩)) := by
  refine ⟨?_, deleteEmployee_missing κ st id⟩
  rintro ⟨r, hr, hk⟩
  rw [deleteEmployee_found κ st id r hr hk]
  exact ⟨rfl, deleteEmployee_missing κ _ id (filter_not_hasKey_no_match (κ id) st.rows)⟩

/-- C15: deleting the id of a stored record answers 200 with the message
'Employee deleted successfully' and the path parameter as `deletedId` (the
decimal form of the record's id when the path is that numeral), removes that
record and no record of another id, and a get-by-id of the same path then
answers 404. -/
theorem delete_existing (κ : RowidOf) (st : Store) (id : String) (r : Employee)
    (hr : r ∈ st.rows) (hk : κ id = some r.id) :
    (deleteEmployee κ st id none).2 = ⟨200, .deleted "Employee deleted successfully" id⟩ ∧
    (id = toString r.id →
      (deleteEmployee κ st id none).2.body
        = .deleted "Employee deleted successfully" (toString r.id)) ∧
    r ∉ (deleteEmployee κ st id none).1.rows ∧
    (∀ x, x ∈ (deleteEmployee κ st id none).1.rows ↔ x ∈ st.rows ∧ x.id ≠ r.id) ∧
    (getEmployee κ (deleteEmployee κ st id none).1 id none).2
      = ⟨404, .error "Employee not found"⟩ := by
  rw [deleteEmployee_found κ st id r hr hk]
  have hmem : ∀ x, x ∈ st.rows.filter (fun r => !r.hasKey (κ id)) ↔
      x ∈ st.rows ∧ x.id ≠ r.id := by
    intro x
    rw [List.mem_filter]
    simp only [Employee.hasKey, hk, Bool.not_eq_true', beq_eq_false_iff_ne, ne_eq,
      Option.some.injEq]
    constructor
    · rintro ⟨hx, hne⟩; exact ⟨hx, fun h => hne h.symm⟩
    · rintro ⟨hx, hne⟩; exact ⟨hx, fun h => hne h.symm⟩
  refine ⟨rfl, ?_, ?_, hmem, ?_⟩
  · intro h; rw [← h]
  · intro h; exact ((hmem r).mp h).2 rfl
  · simp only [getEmployee, sqlSelectById,
      find_hasKey_none (filter_not_hasKey_no_match (κ id) st.rows)]

theorem delete_existing_witness :
    (deleteEmployee decimalRowid (createEmployee Store.init johnBody 7 none none).1 "1" none).2
      = ⟨200, .deleted "Employee deleted successfully" "1"⟩ :=
  (delete_existing decimalRowid (createEmployee Store.init johnBody 7 none none).1 "1"
    ⟨1, "John Doe", "john.doe@example.com", "Software Developer", 7, 7⟩
    (by decide) (by decide)).1


/-! ## Validation failures -/

theorem validateEmployee_reject {b : Body} {status : Nat} {msg : String}
    (h : validateEmployee b = .reject status msg) : status = 400 ∧ msg ∈ validationReasons := by
  unfold validateEmployee at h
  split at h
  · cases h
  · simp only [Validation.reject.injEq] at h
    obtain ⟨rfl, rfl⟩ := h
    simp [validationReasons]
  · split at h
    · cases h
    · simp only [Validation.reject.injEq] at h
      obtain ⟨rfl, rfl⟩ := h
      simp [validationReasons]
    · split at h
      · simp only [Validation.reject.injEq] at h
        obtain ⟨rfl, rfl⟩ := h
        simp [validationReasons]
      · split at h
        · cases h
        · simp only [Validation.reject.injEq] at h
          obtain ⟨rfl, rfl⟩ := h
          simp [validationReasons]
        · cases h

/-- C17: a body that validation rejects is answered 400 with the validation
reason by create and by update, whatever the store holds and whatever the
driver would report: the store after the request is the store before it, and
the answer is the same on every store. -/
theorem rejected_body_leaves_store (κ : RowidOf) (st st2 : Store) (id : String) (b : Body)
    (now : Nat) (fault fault2 : Option String) (status : Nat) (msg : String)
    (h : validateEmployee b = .reject status msg) :
    status = 400 ∧ msg ∈ validationReasons ∧
    createEmployee st b now fault fault2 = (st, ⟨400, .error msg⟩) ∧
    updateEmployee κ st id b now fault fault2 = (st, ⟨400, .error msg⟩) ∧
    (createEmployee st2 b now fault fault2).2 = (createEmployee st b now fault fault2).2 ∧
    (updateEmployee κ st2 id b now fault fault2).2
      = (updateEmployee κ st id b now fault fault2).2 := by
  obtain ⟨rfl, hm⟩ := validateEmployee_reject h
  refine ⟨rfl, hm, ?_, ?_, ?_, ?_⟩
  · unfold createEmployee; rw [h]
  · unfold updateEmployee; rw [h]
  · unfold createEmployee; rw [h]
  · unfold updateEmployee; rw [h]

theorem rejected_body_leaves_store_witness :
    400 = 400 ∧ "Position is required" ∈ validationReasons ∧
    createEmployee (createEmployee Store.init johnBody 7 none none).1
        ⟨.str "Jane", .str "jane@example.com", .str "  "⟩ 8 (some "disk I/O error") none
      = ((createEmployee Store.init johnBody 7 none none).1,
          ⟨400, .error "Position is required"⟩) ∧
    updateEmployee decimalRowid (createEmployee Store.init johnBody 7 none none).1 "1"
        ⟨.str "Jane", .str "jane@example.com", .str "  "⟩ 8 (some "disk I/O error") none
      = ((createEmployee Store.init johnBody 7 none none).1,
          ⟨400, .error "Position is required"⟩) ∧
    (createEmployee Store.init
        ⟨.str "Jane", .str "jane@example.com", .str "  "⟩ 8 (some "disk I/O error") none).2
      = (createEmployee (createEmployee Store.init johnBody 7 none none).1
        ⟨.str "Jane", .str "jane@example.com", .str "  "⟩ 8 (some "disk I/O error") none).2 ∧
    (updateEmployee decimalRowid Store.init "1"
        ⟨.str "Jane", .str "jane@example.com", .str "  "⟩ 8 (some "disk I/O error") none).2
      = (updateEmployee decimalRowid (createEmployee Store.init johnBody 7 none none).1 "1"
        ⟨.str "Jane", .str "jane@example.com", .str "  "⟩ 8 (some "disk I/O error") none).2 :=
  rejected_body_leaves_store decimalRowid (createEmployee Store.init johnBody 7 none none).1
    Store.init "1" ⟨.str "Jane", .str "jane@example.com", .str "  "⟩ 8
    (some "disk I/O error") none 400 "Position is required" (by decide)

/-- C20 (counterexample): a body with a name and no email is answered 400
'Email is required', and so is one whose email is only white space. -/
theorem email_required_reached :
    validateEmployee ⟨.str "John Doe", .absent, .str "Developer"⟩
      = .reject 400 "Email is required" ∧
    validateEmployee ⟨.str "John Doe", .str "   ", .str "Developer"⟩
      = .reject 400 "Email is required" := by
  constructor <;> decide

/-- C20 (amended): `validateEmployee` answers 400 'Email is required' exactly
for the bodies whose name passes the presence check and whose email is missing
or blank; it never does for an email that is a non-blank string. -/
theorem email_required_iff (b : Body) :
    (validateEmployee b = .reject 400 "Email is required" ↔
      missingOrBlank b.name = some false ∧ missingOrBlank b.email = some true) ∧
    (∀ e, b.email = .str e → jsTrim e ≠ "" →
      validateEmployee b ≠ .reject 400 "Email is required") := by
  have key : validateEmployee b = .reject 400 "Email is required" ↔
      missingOrBlank b.name = some false ∧ missingOrBlank b.email = some true := by
    unfold validateEmployee
    rcases hn : missingOrBlank b.name with _ | _ | _
    · simp
    · rcases he : missingOrBlank b.email with _ | _ | _
      · simp
      · simp only [true_and]
        split
        · simp
        · rcases hp : missingOrBlank b.position with _ | _ | _ <;> simp
      · simp
    · simp
  refine ⟨key, ?_⟩
  intro e he hne h
  have h2 := (key.mp h).2
  rw [he, missingOrBlank_str] at h2
  simp only [Option.some.injEq, beq_iff_eq] at h2
  exact hne h2


/-! ## Update of a stored record -/

theorem any_other_email_false {key : Option Nat} {rows : List Employee} {e : String}
    (h : ∀ r ∈ rows, r.hasKey key = false → r.email ≠ e) :
    rows.any (fun r => !r.hasKey key && r.email == e) = false := by
  rw [List.any_eq_false]
  intro r hr
  cases hk : r.hasKey key
  · simpa using h r hr hk
  · simp

theorem find_rewritten (key : Option Nat) (rows : List Employee) (n e p : String) (now : Nat)
    (old : Employee) (hold : rows.find? (Employee.hasKey key) = some old) :
    (rows.map (fun r => if r.hasKey key then r.rewrite n e p now else r)).find?
        (Employee.hasKey key) = some (old.rewrite n e p now) := by
  have hcomp : (Employee.hasKey key ∘ fun r => if r.hasKey key then r.rewrite n e p now else r)
      = Employee.hasKey key := by
    funext r
    simp only [Function.comp]
    split <;> rfl
  rw [List.find?_map, hcomp, hold]
  simp [List.find?_some hold]

theorem updateEmployee_success (κ : RowidOf) (st : Store) (id : String) (n e p : String)
    (now : Nat) (old : Employee)
    (hv : validateEmployee ⟨.str n, .str e, .str p⟩ = .next)
    (hold : st.rows.find? (Employee.hasKey (κ id)) = some old)
    (hfree : ∀ r ∈ st.rows, r.hasKey (κ id) = false → r.email ≠ jsTrim e) :
    updateEmployee κ st id ⟨.str n, .str e, .str p⟩ now none none =
      (⟨st.rows.map (fun r =>
          if r.hasKey (κ id) then r.rewrite (jsTrim n) (jsTrim e) (jsTrim p) now else r),
        st.seq⟩,
       ⟨200, .record (old.rewrite (jsTrim n) (jsTrim e) (jsTrim p) now)⟩) := by
  have hcount : st.rows.countP (Employee.hasKey (κ id)) ≠ 0 :=
    countP_hasKey_pos (find_hasKey_some hold).1 (find_hasKey_some hold).2
  have hfind := find_rewritten (κ id) st.rows (jsTrim n) (jsTrim e) (jsTrim p) now old hold
  unfold updateEmployee
  rw [hv]
  simp only [JVal.callTrim, sqlUpdate, any_other_email_false hfree, Bool.and_false,
    Bool.false_eq_true, if_false, hcount, sqlSelectById]
  unfold Employee.rewrite at hfind
  rw [hfind]
  rfl

theorem updateEmployee_conflict (κ : RowidOf) (st : Store) (id : String) (n e p : String)
    (now : Nat) (fault2 : Option String) (x y : Employee)
    (hv : validateEmployee ⟨.str n, .str e, .str p⟩ = .next)
    (hx : x ∈ st.rows) (hk : κ id = some x.id)
    (hy : y ∈ st.rows) (hxy : y.id ≠ x.id) (he : y.email = jsTrim e) :
    updateEmployee κ st id ⟨.str n, .str e, .str p⟩ now none fault2 =
      (st, ⟨400, .error "Email already exists"⟩) := by
  have h1 : st.rows.any (Employee.hasKey (κ id)) = true :=
    List.any_eq_true.mpr ⟨x, hx, (hasKey_iff _ _).mpr hk⟩
  have h2 : st.rows.any (fun r => !r.hasKey (κ id) && r.email == jsTrim e) = true := by
    refine List.any_eq_true.mpr ⟨y, hy, ?_⟩
    have : y.hasKey (κ id) = false := by
      cases hyk : y.hasKey (κ id)
      · rfl
      · have := (hasKey_iff _ _).mp hyk
        rw [hk] at this
        simp only [Option.some.injEq] at this
        exact absurd this.symm hxy
    simp [this, he]
  have hinc : jsIncludes uniqueViolation "UNIQUE constraint failed" = true := by decide
  unfold updateEmployee
  rw [hv]
  simp only [JVal.callTrim, sqlUpdate, h1, h2, Bool.and_self, if_true, hinc]

/-- C12: an update of a stored record with a valid body whose trimmed email no
record of another id holds answers 200 with the updated record, which is then
stored: name, email and position are the trimmed submitted values, updated_at
is the time of the update, id and created_at are those the record had. -/
theorem update_existing (κ : RowidOf) (st : Store) (id : String) (b : Body) (now : Nat)
    (old : Employee)
    (hv : validateEmployee b = .next)
    (hold : st.rows.find? (Employee.hasKey (κ id)) = some old)
    (hfree : ∀ r ∈ st.rows, r.id ≠ old.id → some r.email ≠ b.email.callTrim) :
    ∃ row,
      (updateEmployee κ st id b now none none).2 = ⟨200, .record row⟩ ∧
      row ∈ (updateEmployee κ st id b now none none).1.rows ∧
      b.name.callTrim = some row.name ∧ b.email.callTrim = some row.email ∧
      b.position.callTrim = some row.position ∧
      row.updated_at = now ∧ row.id = old.id ∧ row.created_at = old.created_at := by
  obtain ⟨n, e, p, rfl, -, -, -, -⟩ := validateEmployee_next hv
  obtain ⟨hmem, hk⟩ := find_hasKey_some hold
  have hf : ∀ r ∈ st.rows, r.hasKey (κ id) = false → r.email ≠ jsTrim e := by
    intro r hr hrk h
    refine hfree r hr ?_ (by simp [JVal.callTrim, h])
    intro hid
    have : r.hasKey (κ id) = true := (hasKey_iff _ _).mpr (by rw [hk, hid])
    rw [hrk] at this
    cases this
  rw [updateEmployee_success κ st id n e p now old hv hold hf]
  refine ⟨old.rewrite (jsTrim n) (jsTrim e) (jsTrim p) now, rfl, ?_, rfl, rfl, rfl, rfl, rfl, rfl⟩
  refine List.mem_map.mpr ⟨old, hmem, ?_⟩
  simp [List.find?_some hold]


theorem update_existing_witness :
    ∃ row,
      (updateEmployee decimalRowid twoStore "1" smithBody 9 none none).2
        = ⟨200, .record row⟩ ∧
      row ∈ (updateEmployee decimalRowid twoStore "1" smithBody 9 none none).1.rows ∧
      smithBody.name.callTrim = some row.name ∧ smithBody.email.callTrim = some row.email ∧
      smithBody.position.callTrim = some row.position ∧
      row.updated_at = 9 ∧
      row.id = (⟨1, "John Doe", "john.doe@example.com", "Software Developer", 7, 7⟩
        : Employee).id ∧
      row.created_at = (⟨1, "John Doe", "john.doe@example.com", "Software Developer", 7, 7⟩
        : Employee).created_at :=
  update_existing decimalRowid twoStore "1" smithBody 9
    ⟨1, "John Doe", "john.doe@example.com", "Software Developer", 7, 7⟩
    (by decide) (by decide) (by decide)

/-- C13: in a store holding records X and Y of different ids, a valid update of
X whose trimmed email is the email of Y answers 400 'Email already exists',
as a create of the same body does, and leaves the store as it was. -/
theorem update_to_taken_email (κ : RowidOf) (st : Store) (id : String) (b : Body) (now : Nat)
    (x y : Employee)
    (hx : x ∈ st.rows) (hy : y ∈ st.rows) (hxy : y.id ≠ x.id) (hk : κ id = some x.id)
    (hv : validateEmployee b = .next) (he : b.email.callTrim = some y.email) :
    updateEmployee κ st id b now none none = (st, ⟨400, .error "Email already exists"⟩) ∧
    x ∈ (updateEmployee κ st id b now none none).1.rows ∧
    (createEmployee st b now none none).2 = ⟨400, .error "Email already exists"⟩ := by
  obtain ⟨n, e, p, rfl, -, -, -, -⟩ := validateEmployee_next hv
  simp only [JVal.callTrim, Option.some.injEq] at he
  have hu := updateEmployee_conflict κ st id n e p now none x y hv hx hk hy hxy he.symm
  refine ⟨hu, ?_, ?_⟩
  · rw [hu]; exact hx
  · rw [createEmployee_duplicate st n e p now none hv ⟨y, hy, he.symm⟩]

theorem update_to_taken_email_witness :
    updateEmployee decimalRowid twoStore "1"
        ⟨.str "John Doe", .str "jane.doe@example.com", .str "Software Developer"⟩ 9 none none
      = (twoStore, ⟨400, .error "Email already exists"⟩) ∧
    (⟨1, "John Doe", "john.doe@example.com", "Software Developer", 7, 7⟩ : Employee) ∈
      (updateEmployee decimalRowid twoStore "1"
        ⟨.str "John Doe", .str "jane.doe@example.com", .str "Software Developer"⟩
        9 none none).1.rows ∧
    (createEmployee twoStore
        ⟨.str "John Doe", .str "jane.doe@example.com", .str "Software Developer"⟩
        9 none none).2 = ⟨400, .error "Email already exists"⟩ :=
  update_to_taken_email decimalRowid twoStore "1"
    ⟨.str "John Doe", .str "jane.doe@example.com", .str "Software Developer"⟩ 9
    ⟨1, "John Doe", "john.doe@example.com", "Software Developer", 7, 7⟩
    ⟨2, "Jane Doe", "jane.doe@example.com", "Designer", 8, 8⟩
    (by decide) (by decide) (by decide) (by decide) (by decide) (by decide)

/-- C18: sending the same valid update of a stored record twice in a row, its
trimmed email held by no record of another id, answers 200 both times; the
record after the second request has the id, name, email, position and
created_at it had after the first, and the time of the second as updated_at. -/
theorem update_twice (κ : RowidOf) (st : Store) (id : String) (b : Body) (t1 t2 : Nat)
    (old : Employee)
    (hv : validateEmployee b = .next)
    (hold : st.rows.find? (Employee.hasKey (κ id)) = some old)
    (hfree : ∀ r ∈ st.rows, r.id ≠ old.id → some r.email ≠ b.email.callTrim) :
    ∃ row1 row2,
      (updateEmployee κ st id b t1 none none).2 = ⟨200, .record row1⟩ ∧
      (updateEmployee κ (updateEmployee κ st id b t1 none none).1 id b t2 none none).2
        = ⟨200, .record row2⟩ ∧
      row2 ∈ (updateEmployee κ (updateEmployee κ st id b t1 none none).1 id b t2
        none none).1.rows ∧
      row2.id = row1.id ∧ row2.name = row1.name ∧ row2.email = row1.email ∧
      row2.position = row1.position ∧ row2.created_at = row1.created_at ∧
      row2.updated_at = t2 := by
  obtain ⟨n, e, p, rfl, -, -, -, -⟩ := validateEmployee_next hv
  obtain ⟨hmem, hk⟩ := find_hasKey_some hold
  have hf : ∀ r ∈ st.rows, r.hasKey (κ id) = false → r.email ≠ jsTrim e := by
    intro r hr hrk h
    refine hfree r hr ?_ (by simp [JVal.callTrim, h])
    intro hid
    have : r.hasKey (κ id) = true := (hasKey_iff _ _).mpr (by rw [hk, hid])
    rw [hrk] at this
    cases this
  have h1 := updateEmployee_success κ st id n e p t1 old hv hold hf
  rw [h1]
  have hold2 := find_rewritten (κ id) st.rows (jsTrim n) (jsTrim e) (jsTrim p) t1 old hold
  have hf2 : ∀ r ∈ st.rows.map (fun r =>
      if r.hasKey (κ id) then r.rewrite (jsTrim n) (jsTrim e) (jsTrim p) t1 else r),
      r.hasKey (κ id) = false → r.email ≠ jsTrim e := by
    intro r hr hrk
    obtain ⟨r0, hr0, rfl⟩ := List.mem_map.mp hr
    cases h0 : r0.hasKey (κ id) with
    | false =>
      simp only [h0, Bool.false_eq_true, if_false]
      exact hf r0 hr0 h0
    | true =>
      simp only [h0, if_true] at hrk
      have : (r0.rewrite (jsTrim n) (jsTrim e) (jsTrim p) t1).hasKey (κ id) = r0.hasKey (κ id) :=
        rfl
      rw [this, h0] at hrk
      cases hrk
  have h2 := updateEmployee_success κ
    ⟨st.rows.map (fun r =>
      if r.hasKey (κ id) then r.rewrite (jsTrim n) (jsTrim e) (jsTrim p) t1 else r), st.seq⟩
    id n e p t2 (old.rewrite (jsTrim n) (jsTrim e) (jsTrim p) t1) hv hold2 hf2
  rw [h2]
  refine ⟨_, _, rfl, rfl, ?_, rfl, rfl, rfl, rfl, rfl, rfl⟩
  refine List.mem_map.mpr ⟨old.rewrite (jsTrim n) (jsTrim e) (jsTrim p) t1,
    List.mem_of_find?_eq_some hold2, ?_⟩
  simp [List.find?_some hold2]

theorem update_twice_witness :
    ∃ row1 row2,
      (updateEmployee decimalRowid twoStore "1" smithBody 9 none none).2
        = ⟨200, .record row1⟩ ∧
      (updateEmployee decimalRowid
        (updateEmployee decimalRowid twoStore "1" smithBody 9 none none).1 "1" smithBody 10
        none none).2 = ⟨200, .record row2⟩ ∧
      row2 ∈ (updateEmployee decimalRowid
        (updateEmployee decimalRowid twoStore "1" smithBody 9 none none).1 "1" smithBody 10
        none none).1.rows ∧
      row2.id = row1.id ∧ row2.name = row1.name ∧ row2.email = row1.email ∧
      row2.position = row1.position ∧ row2.created_at = row1.created_at ∧
      row2.updated_at = 10 :=
  update_twice decimalRowid twoStore "1" smithBody 9 10
    ⟨1, "John Doe", "john.doe@example.com", "Software Developer", 7, 7⟩
    (by decide) (by decide) (by decide)


/-! ## Store failures -/

theorem genericFailure_of_ne {status : Nat} {body : RespBody} (h : status ≠ 500) :
    Response.GenericFailure ⟨status, body⟩ :=
  fun h500 => absurd h500 h

theorem genericFailure_of_mem {m : String} (h : m ∈ serverErrorMessages) :
    Response.GenericFailure ⟨500, .error m⟩ :=
  fun _ => ⟨m, h, rfl⟩

theorem listEmployees_generic (st : Store) (fault : Option String) :
    (listEmployees st fault).2.GenericFailure := by
  unfold listEmployees
  split
  · exact genericFailure_of_mem (by simp [serverErrorMessages])
  · exact genericFailure_of_ne (by decide)

theorem getEmployee_generic (κ : RowidOf) (st : Store) (id : String) (fault : Option String) :
    (getEmployee κ st id fault).2.GenericFailure := by
  unfold getEmployee
  split
  · exact genericFailure_of_mem (by simp [serverErrorMessages])
  · exact genericFailure_of_ne (by decide)
  · exact genericFailure_of_ne (by decide)

theorem deleteEmployee_generic (κ : RowidOf) (st : Store) (id : String)
    (fault : Option String) : (deleteEmployee κ st id fault).2.GenericFailure := by
  unfold deleteEmployee
  split
  · exact genericFailure_of_mem (by simp [serverErrorMessages])
  · split
    · exact genericFailure_of_ne (by decide)
    · exact genericFailure_of_ne (by decide)

theorem createEmployee_generic (st : Store) (b : Body) (now : Nat)
    (fault fault2 : Option String) : (createEmployee st b now fault fault2).2.GenericFailure := by
  unfold createEmployee
  split
  · exact genericFailure_of_mem (by simp [serverErrorMessages])
  · rename_i status msg hv
    have := (validateEmployee_reject hv).1
    subst this
    exact genericFailure_of_ne (by decide)
  · split
    · split
      · split
        · exact genericFailure_of_ne (by decide)
        · exact genericFailure_of_mem (by simp [serverErrorMessages])
      · split
        · exact genericFailure_of_mem (by simp [serverErrorMessages])
        · exact genericFailure_of_ne (by decide)
    · exact genericFailure_of_mem (by simp [serverErrorMessages])

theorem updateEmployee_generic (κ : RowidOf) (st : Store) (id : String) (b : Body) (now : Nat)
    (fault fault2 : Option String) :
    (updateEmployee κ st id b now fault fault2).2.GenericFailure := by
  unfold updateEmployee
  split
  · exact genericFailure_of_mem (by simp [serverErrorMessages])
  · rename_i status msg hv
    have := (validateEmployee_reject hv).1
    subst this
    exact genericFailure_of_ne (by decide)
  · split
    · split
      · split
        · exact genericFailure_of_ne (by decide)
        · exact genericFailure_of_mem (by simp [serverErrorMessages])
      · split
        · exact genericFailure_of_ne (by decide)
        · split
          · exact genericFailure_of_mem (by simp [serverErrorMessages])
          · exact genericFailure_of_ne (by decide)
    · exact genericFailure_of_mem (by simp [serverErrorMessages])

/-- C16: on every employee route, in every store and under every store failure,
a response with status 500 carries an error message from the fixed list; two
runs that differ only in the text of the error the first statement raises,
both texts naming the uniqueness constraint or neither, end in the same store
and response, and so do two runs that differ only in the text of the error the
follow-up read raises. -/
theorem store_errors_not_leaked (κ : RowidOf) (st : Store) (now : Nat) (req : Request) :
    (∀ fault fault2, (handle κ st ⟨now, fault, fault2⟩ req).2.status = 500 →
      ∃ m ∈ serverErrorMessages, (handle κ st ⟨now, fault, fault2⟩ req).2.body = .error m) ∧
    (∀ m1 m2 fault2,
      jsIncludes m1 "UNIQUE constraint failed" = jsIncludes m2 "UNIQUE constraint failed" →
      handle κ st ⟨now, some m1, fault2⟩ req = handle κ st ⟨now, some m2, fault2⟩ req) ∧
    (∀ fault m1 m2,
      handle κ st ⟨now, fault, some m1⟩ req = handle κ st ⟨now, fault, some m2⟩ req) := by
  refine ⟨?_, ?_, ?_⟩
  · intro fault fault2
    cases req with
    | list => exact listEmployees_generic st fault
    | get id => exact getEmployee_generic κ st id fault
    | create b => exact createEmployee_generic st b now fault fault2
    | update id b => exact updateEmployee_generic κ st id b now fault fault2
    | delete id => exact deleteEmployee_generic κ st id fault
  · intro m1 m2 fault2 h
    cases req with
    | list => rfl
    | get id => rfl
    | create b => simp only [handle, createEmployee, sqlInsert, h]
    | update id b => simp only [handle, updateEmployee, sqlUpdate, h]
    | delete id => rfl
  · intro fault m1 m2
    cases req with
    | list => rfl
    | get id => rfl
    | create b => simp only [handle, createEmployee, sqlSelectById]
    | update id b => simp only [handle, updateEmployee, sqlSelectById]
    | delete id => rfl


/-! ## Stored records are clean -/

theorem dropWhile_head_not_space {w rest : List Char} {a : Char}
    (h : w.dropWhile isJsSpace = a :: rest) : isJsSpace a = false := by
  have hne : w.dropWhile isJsSpace ≠ [] := by rw [h]; exact List.cons_ne_nil _ _
  have := List.head_dropWhile_not isJsSpace w hne
  simpa [h] using this

theorem trimChars_idem (w : List Char) : trimChars (trimChars w) = trimChars w := by
  have hdef : ∀ l : List Char, trimChars l = (l.dropWhile isJsSpace).rdropWhile isJsSpace :=
    fun _ => rfl
  have hfix : (trimChars w).dropWhile isJsSpace = trimChars w := by
    obtain ⟨t, ht⟩ : trimChars w <+: w.dropWhile isJsSpace := by
      rw [hdef]; exact List.rdropWhile_prefix _ _
    cases hu : trimChars w with
    | nil => rfl
    | cons a u =>
      rw [hu] at ht
      have ha : isJsSpace a = false := dropWhile_head_not_space ht.symm
      simp [List.dropWhile, ha]
  rw [hdef (trimChars w), hfix, hdef w, List.rdropWhile_idempotent]

theorem jsTrim_idem (s : String) : jsTrim (jsTrim s) = jsTrim s := by
  unfold jsTrim
  rw [trimChars_idem]

theorem emailTest_ne_empty {e : String} (h : emailTest e = true) : e ≠ "" := by
  intro he
  rw [he] at h
  exact absurd h (by decide)

theorem clean_of_valid {n e p : String}
    (hv : validateEmployee ⟨.str n, .str e, .str p⟩ = .next) (id c u : Nat) :
    Employee.Clean ⟨id, jsTrim n, jsTrim e, jsTrim p, c, u⟩ := by
  obtain ⟨n1, e1, p1, hb, hn, ht, hte, hp⟩ := validateEmployee_next hv
  simp only [Body.mk.injEq, JVal.str.injEq] at hb
  obtain ⟨rfl, rfl, rfl⟩ := hb
  refine ⟨hn, jsTrim_idem n, hp, jsTrim_idem p, ?_, ?_⟩
  · show jsTrim e ≠ ""
    rw [hte]; exact emailTest_ne_empty ht
  · show emailTest (jsTrim e) = true
    rw [hte]; exact ht

theorem createEmployee_rows (st : Store) (b : Body) (now : Nat) (fault fault2 : Option String) :
    (createEmployee st b now fault fault2).1 = st ∨
    ∃ n e p, validateEmployee ⟨.str n, .str e, .str p⟩ = .next ∧
      (createEmployee st b now fault fault2).1.rows
        = st.rows ++ [st.newRow (jsTrim n) (jsTrim e) (jsTrim p) now] := by
  cases hv : validateEmployee b with
  | throw => left; unfold createEmployee; rw [hv]
  | reject status msg => left; unfold createEmployee; rw [hv]
  | next =>
    obtain ⟨n, e, p, rfl, -, -, -, -⟩ := validateEmployee_next hv
    unfold createEmployee
    rw [hv]
    simp only [JVal.callTrim]
    cases fault with
    | some m =>
      left
      simp only [sqlInsert]
      split <;> rfl
    | none =>
      by_cases hany : st.rows.any (fun r => r.email == jsTrim e) = true
      · left
        simp only [sqlInsert, hany, if_true]
        split <;> rfl
      · right
        refine ⟨n, e, p, hv, ?_⟩
        simp only [sqlInsert, hany, Bool.false_eq_true, if_false]
        cases fault2 <;> rfl

theorem updateEmployee_rows (κ : RowidOf) (st : Store) (id : String) (b : Body) (now : Nat)
    (fault fault2 : Option String) :
    (updateEmployee κ st id b now fault fault2).1 = st ∨
    ∃ n e p, validateEmployee ⟨.str n, .str e, .str p⟩ = .next ∧
      (updateEmployee κ st id b now fault fault2).1.rows
        = st.rows.map (fun r =>
            if r.hasKey (κ id) then r.rewrite (jsTrim n) (jsTrim e) (jsTrim p) now else r) := by
  cases hv : validateEmployee b with
  | throw => left; unfold updateEmployee; rw [hv]
  | reject status msg => left; unfold updateEmployee; rw [hv]
  | next =>
    obtain ⟨n, e, p, rfl, -, -, -, -⟩ := validateEmployee_next hv
    unfold updateEmployee
    rw [hv]
    simp only [JVal.callTrim]
    cases fault with
    | some m =>
      left
      simp only [sqlUpdate]
      split <;> rfl
    | none =>
      by_cases hc : (st.rows.any (Employee.hasKey (κ id)) &&
          st.rows.any (fun r => !r.hasKey (κ id) && r.email == jsTrim e)) = true
      · left
        simp only [sqlUpdate, hc, if_true]
        split <;> rfl
      · right
        refine ⟨n, e, p, hv, ?_⟩
        simp only [sqlUpdate, hc, Bool.false_eq_true, if_false]
        split
        · rfl
        · cases fault2 <;> rfl

theorem deleteEmployee_rows (κ : RowidOf) (st : Store) (id : String) (fault : Option String) :
    ∀ r ∈ (deleteEmployee κ st id fault).1.rows, r ∈ st.rows := by
  intro r hr
  cases fault with
  | some m => exact hr
  | none =>
    simp only [deleteEmployee, sqlDelete] at hr
    split at hr
    · exact (List.mem_filter.mp hr).1
    · exact (List.mem_filter.mp hr).1

theorem handle_clean (κ : RowidOf) (st : Store) (env : Env) (req : Request)
    (h : ∀ r ∈ st.rows, r.Clean) : ∀ r ∈ (handle κ st env req).1.rows, r.Clean := by
  cases req with
  | list => simpa only [handle, listEmployees_store] using h
  | get id => simpa only [handle, getEmployee_store] using h
  | create b =>
    simp only [handle]
    rcases createEmployee_rows st b env.now env.fault env.fault2 with hs | ⟨n, e, p, hv, hs⟩
    · rw [hs]; exact h
    · rw [hs]
      intro r hr
      rcases List.mem_append.mp hr with hr | hr
      · exact h r hr
      · rw [List.mem_singleton.mp hr]
        exact clean_of_valid hv _ _ _
  | update id b =>
    simp only [handle]
    rcases updateEmployee_rows κ st id b env.now env.fault env.fault2 with
      hs | ⟨n, e, p, hv, hs⟩
    · rw [hs]; exact h
    · rw [hs]
      intro r hr
      obtain ⟨r0, hr0, rfl⟩ := List.mem_map.mp hr
      split
      · exact clean_of_valid hv _ _ _
      · exact h r0 hr0
  | delete id =>
    intro r hr
    exact h r (deleteEmployee_rows κ st id env.fault r hr)

theorem reachable_clean {κ : RowidOf} {st : Store} (h : Reachable κ st) :
    ∀ r ∈ st.rows, r.Clean := by
  induction h with
  | init => intro r hr; cases hr
  | step env req _ ih => exact handle_clean κ _ env req ih

/-- C19: in every store state reachable from the empty table by requests to the
API, every stored record has a name and a position that are non-empty and
equal to their own trimmed form, and an email that is non-empty and matches
the email pattern, that is, has the shape `local@d1.d2`. -/
theorem reachable_records_clean (κ : RowidOf) (st : Store) (h : Reachable κ st) :
    ∀ r ∈ st.rows,
      r.name ≠ "" ∧ jsTrim r.name = r.name ∧ r.position ≠ "" ∧ jsTrim r.position = r.position ∧
      r.email ≠ "" ∧ emailTest r.email = true ∧ EmailShape r.email.data := by
  intro r hr
  obtain ⟨h1, h2, h3, h4, h5, h6⟩ := reachable_clean h r hr
  exact ⟨h1, h2, h3, h4, h5, h6, (emailTest_iff_shape r.email).mp h6⟩

theorem reachable_records_clean_witness :
    (smithRow.name ≠ "" ∧ jsTrim smithRow.name = smithRow.name ∧ smithRow.position ≠ "" ∧
      jsTrim smithRow.position = smithRow.position ∧ smithRow.email ≠ "" ∧
      emailTest smithRow.email = true ∧ EmailShape smithRow.email.data) :=
  reachable_records_clean decimalRowid
    (handle decimalRowid
      (handle decimalRowid Store.init ⟨7, none, none⟩
        (.create ⟨.str "  John Doe ", .str "john.doe@example.com", .str "Dev\n"⟩)).1
      ⟨8, none, none⟩ (.update "1" smithBody)).1
    (.step ⟨8, none, none⟩ (.update "1" smithBody)
      (.step ⟨7, none, none⟩
        (.create ⟨.str "  John Doe ", .str "john.doe@example.com", .str "Dev\n"⟩) .init))
    smithRow (by decide)


/-! ## The pattern, in words -/

theorem at_not_run_char {w : List Char} (h : ∀ c ∈ w, notSpaceAt c = true) : '@' ∉ w := by
  intro hmem
  exact absurd (h '@' hmem) (by decide)

theorem notSpaceAt_of {c : Char} (hs : isJsSpace c = false) (ha : c ≠ '@') :
    notSpaceAt c = true := by
  simp [notSpaceAt, hs, ha]

theorem emailShape_iff_oneAtDotInside (w : List Char) : EmailShape w ↔ OneAtDotInside w := by
  constructor
  · intro h
    have hsp := h.no_space
    obtain ⟨l, d1, d2, rfl, hl, hd1, hd2⟩ := h
    refine ⟨hsp, ?_, l, d1 ++ '.' :: d2, rfl, hl.1, d1, d2, rfl, hd1.1, hd2.1⟩
    have c1 := List.count_eq_zero.mpr (at_not_run_char hl.2)
    have c2 := List.count_eq_zero.mpr (at_not_run_char hd1.2)
    have c3 := List.count_eq_zero.mpr (at_not_run_char hd2.2)
    simp [List.count_append, List.count_cons, c1, c2, c3]
  · rintro ⟨hsp, hcount, l, d, rfl, hl, d1, d2, rfl, hd1, hd2⟩
    simp only [List.count_append, List.count_cons, beq_self_eq_true, if_true] at hcount
    have hdot : (('.' : Char) == '@') = false := by decide
    simp only [hdot, Bool.false_eq_true, if_false] at hcount
    have c1 : l.count '@' = 0 := by omega
    have c2 : d1.count '@' = 0 := by omega
    have c3 : d2.count '@' = 0 := by omega
    rw [List.count_eq_zero] at c1 c2 c3
    refine ⟨l, d1, d2, rfl, ⟨hl, ?_⟩, ⟨hd1, ?_⟩, ⟨hd2, ?_⟩⟩
    · intro c hc
      exact notSpaceAt_of (hsp c (by simp [hc])) (fun h => c1 (h ▸ hc))
    · intro c hc
      exact notSpaceAt_of (hsp c (by simp [hc])) (fun h => c2 (h ▸ hc))
    · intro c hc
      exact notSpaceAt_of (hsp c (by simp [hc])) (fun h => c3 (h ▸ hc))

/-- C25: the pattern of `validateEmployee` accepts a string exactly when it has
no white space, exactly one `@` with a non-empty part before it, and after the
`@` a part with a `.` that is neither its first nor its last character; it
rejects `a@.b`, `a@b.` and `a@b@c.d` and accepts `a@b..c`. -/
theorem emailTest_iff_one_at_dot_inside :
    (∀ s : String, emailTest s = true ↔ OneAtDotInside s.data) ∧
    emailTest "a@.b" = false ∧ emailTest "a@b." = false ∧ emailTest "a@b@c.d" = false ∧
    emailTest "a@b..c" = true := by
  refine ⟨fun s => ?_, by decide, by decide, by decide, by decide⟩
  rw [emailTest_iff_shape, emailShape_iff_oneAtDotInside]

/-! ## The email is stored as submitted -/

theorem emailTest_false_of_edge_space {e : String} (h : hasEdgeSpace e = true) :
    emailTest e = false := by
  cases ht : emailTest e with
  | false => rfl
  | true =>
    have hsp := ((emailTest_iff_shape e).mp ht).no_space
    unfold hasEdgeSpace at h
    rw [Bool.or_eq_true] at h
    rcases h with h | h
    · cases hh : e.data.head? with
      | none => simp [hh] at h
      | some c =>
        simp only [hh, Option.map_some', Option.getD_some] at h
        have := hsp c (List.mem_of_mem_head? hh)
        rw [h] at this
        cases this
    · cases hh : e.data.getLast? with
      | none => simp [hh] at h
      | some c =>
        simp only [hh, Option.map_some', Option.getD_some] at h
        have := hsp c (List.mem_of_getLast?_eq_some hh)
        rw [h] at this
        cases this

theorem validateEmployee_bad_email {n e : String} (p : JVal)
    (hn : jsTrim n ≠ "") (he : jsTrim e ≠ "") (ht : emailTest e = false) :
    validateEmployee ⟨.str n, .str e, p⟩ = .reject 400 "Invalid email format" := by
  have h1 : (jsTrim n == "") = false := by simpa using hn
  have h2 : (jsTrim e == "") = false := by simpa using he
  unfold validateEmployee
  simp only [missingOrBlank_str, h1, h2, JVal.emailTest, ht, Bool.not_false, if_true]

/-- C24 (counterexample): with a non-blank name, the email `" "`, which starts
with white space, is answered 400 'Email is required', not 'Invalid email
format'. -/
theorem blank_email_is_required_not_invalid :
    hasEdgeSpace " " = true ∧
    validateEmployee ⟨.str "John Doe", .str " ", .str "Developer"⟩
      = .reject 400 "Email is required" := by
  constructor <;> decide

theorem createEmployee_rows_str (st : Store) (n e p : String) (now : Nat)
    (fault fault2 : Option String) :
    (createEmployee st ⟨.str n, .str e, .str p⟩ now fault fault2).1 = st ∨
    (createEmployee st ⟨.str n, .str e, .str p⟩ now fault fault2).1.rows
      = st.rows ++ [st.newRow (jsTrim n) (jsTrim e) (jsTrim p) now] := by
  cases hv : validateEmployee ⟨.str n, .str e, .str p⟩ with
  | throw => left; unfold createEmployee; rw [hv]
  | reject status msg => left; unfold createEmployee; rw [hv]
  | next =>
    unfold createEmployee
    rw [hv]
    simp only [JVal.callTrim]
    cases fault with
    | some m =>
      left
      simp only [sqlInsert]
      split <;> rfl
    | none =>
      by_cases hany : st.rows.any (fun r => r.email == jsTrim e) = true
      · left
        simp only [sqlInsert, hany, if_true]
        split <;> rfl
      · right
        simp only [sqlInsert, hany, Bool.false_eq_true, if_false]
        cases fault2 <;> rfl

theorem updateEmployee_rows_str (κ : RowidOf) (st : Store) (id : String) (n e p : String)
    (now : Nat) (fault fault2 : Option String) :
    (updateEmployee κ st id ⟨.str n, .str e, .str p⟩ now fault fault2).1 = st ∨
    (updateEmployee κ st id ⟨.str n, .str e, .str p⟩ now fault fault2).1.rows
      = st.rows.map (fun r =>
          if r.hasKey (κ id) then r.rewrite (jsTrim n) (jsTrim e) (jsTrim p) now else r) := by
  cases hv : validateEmployee ⟨.str n, .str e, .str p⟩ with
  | throw => left; unfold updateEmployee; rw [hv]
  | reject status msg => left; unfold updateEmployee; rw [hv]
  | next =>
    unfold updateEmployee
    rw [hv]
    simp only [JVal.callTrim]
    cases fault with
    | some m =>
      left
      simp only [sqlUpdate]
      split <;> rfl
    | none =>
      by_cases hc : (st.rows.any (Employee.hasKey (κ id)) &&
          st.rows.any (fun r => !r.hasKey (κ id) && r.email == jsTrim e)) = true
      · left
        simp only [sqlUpdate, hc, if_true]
        split <;> rfl
      · right
        simp only [sqlUpdate, hc, Bool.false_eq_true, if_false]
        split
        · rfl
        · cases fault2 <;> rfl

/-- C24 (amended): a body that `validateEmployee` lets through carries an email
equal to its trimmed form, so every record create or update writes holds the
email as submitted; and with a non-blank name, every email that starts or ends
with white space and is not blank is answered 400 'Invalid email format'. -/
theorem valid_email_is_stored_as_submitted (b : Body) :
    (validateEmployee b = .next →
      ∃ e, b.email = .str e ∧ jsTrim e = e ∧ b.email.callTrim = some e ∧
        (∀ st now fault fault2, ∀ r ∈ (createEmployee st b now fault fault2).1.rows,
          r ∈ st.rows ∨ r.email = e) ∧
        (∀ κ st id now fault fault2, ∀ r ∈ (updateEmployee κ st id b now fault fault2).1.rows,
          r ∈ st.rows ∨ r.email = e)) ∧
    (∀ n e, b.name = .str n → b.email = .str e → jsTrim n ≠ "" → hasEdgeSpace e = true →
      jsTrim e ≠ "" → validateEmployee b = .reject 400 "Invalid email format") := by
  constructor
  · intro hv
    obtain ⟨n, e, p, rfl, -, ht, hte, -⟩ := validateEmployee_next hv
    refine ⟨e, rfl, hte, by simp [JVal.callTrim, hte], ?_, ?_⟩
    · intro st now fault fault2 r hr
      rcases createEmployee_rows_str st n e p now fault fault2 with hs | hs
      · left; rw [hs] at hr; exact hr
      · rw [hs] at hr
        rcases List.mem_append.mp hr with hr | hr
        · exact Or.inl hr
        · right
          rw [List.mem_singleton.mp hr]
          exact hte
    · intro κ st id now fault fault2 r hr
      rcases updateEmployee_rows_str κ st id n e p now fault fault2 with hs | hs
      · left; rw [hs] at hr; exact hr
      · rw [hs] at hr
        obtain ⟨r0, hr0, rfl⟩ := List.mem_map.mp hr
        cases hk : r0.hasKey (κ id) with
        | false => left; simpa [hk] using hr0
        | true => right; simp only [hk, if_true]; exact hte
  · intro n e hn he hnn hedge hne
    obtain ⟨bn, be, bp⟩ := b
    simp only at hn he
    subst hn he
    exact validateEmployee_bad_email bp hnn hne (emailTest_false_of_edge_space hedge)

/-! ## Errors of the first statement -/

/-- C26: whenever the INSERT of create or the UPDATE of update raises an error,
the store's own or one the driver reports, the answer is 400 'Email already
exists' exactly when the error's message contains 'UNIQUE constraint failed',
and otherwise 500 with 'Failed to create employee' or 'Failed to update
employee'; the store is left as it was and the answer is the same whatever the
follow-up read would do. -/
theorem write_error_mapping (κ : RowidOf) (st : Store) (id : String) (n e p : String)
    (now : Nat) (fault fault2 : Option String) (msg : String)
    (hv : validateEmployee ⟨.str n, .str e, .str p⟩ = .next) :
    (sqlInsert st (jsTrim n) (jsTrim e) (jsTrim p) now fault = .error msg →
      createEmployee st ⟨.str n, .str e, .str p⟩ now fault fault2
        = (st, if jsIncludes msg "UNIQUE constraint failed" then
                ⟨400, .error "Email already exists"⟩
               else ⟨500, .error "Failed to create employee"⟩) ∧
      ((createEmployee st ⟨.str n, .str e, .str p⟩ now fault fault2).2
          = ⟨400, .error "Email already exists"⟩ ↔
        jsIncludes msg "UNIQUE constraint failed" = true)) ∧
    (sqlUpdate st (jsTrim n) (jsTrim e) (jsTrim p) (κ id) now fault = .error msg →
      updateEmployee κ st id ⟨.str n, .str e, .str p⟩ now fault fault2
        = (st, if jsIncludes msg "UNIQUE constraint failed" then
                ⟨400, .error "Email already exists"⟩
               else ⟨500, .error "Failed to update employee"⟩) ∧
      ((updateEmployee κ st id ⟨.str n, .str e, .str p⟩ now fault fault2).2
          = ⟨400, .error "Email already exists"⟩ ↔
        jsIncludes msg "UNIQUE constraint failed" = true)) := by
  constructor
  · intro herr
    have hc : createEmployee st ⟨.str n, .str e, .str p⟩ now fault fault2
        = (st, if jsIncludes msg "UNIQUE constraint failed" then
                ⟨400, .error "Email already exists"⟩
               else ⟨500, .error "Failed to create employee"⟩) := by
      unfold createEmployee
      rw [hv]
      simp only [JVal.callTrim, herr]
      split <;> rfl
    refine ⟨hc, ?_⟩
    rw [hc]
    cases jsIncludes msg "UNIQUE constraint failed" <;> simp
  · intro herr
    have hc : updateEmployee κ st id ⟨.str n, .str e, .str p⟩ now fault fault2
        = (st, if jsIncludes msg "UNIQUE constraint failed" then
                ⟨400, .error "Email already exists"⟩
               else ⟨500, .error "Failed to update employee"⟩) := by
      unfold updateEmployee
      rw [hv]
      simp only [JVal.callTrim, herr]
      split <;> rfl
    refine ⟨hc, ?_⟩
    rw [hc]
    cases jsIncludes msg "UNIQUE constraint failed" <;> simp

theorem write_error_mapping_witness :
    createEmployee twoStore ⟨.str "John Smith", .str "john.smith@example.com", .str "Dev"⟩ 9
        (some "SQLITE_BUSY: database is locked") (some "SQLITE_IOERR: disk I/O error")
      = (twoStore, ⟨500, .error "Failed to create employee"⟩) ∧
    updateEmployee decimalRowid twoStore "1"
        ⟨.str "John Smith", .str "jane.doe@example.com", .str "Dev"⟩ 9 none none
      = (twoStore, ⟨400, .error "Email already exists"⟩) :=
  ⟨((write_error_mapping decimalRowid twoStore "1" "John Smith" "john.smith@example.com" "Dev"
      9 (some "SQLITE_BUSY: database is locked") (some "SQLITE_IOERR: disk I/O error")
      "SQLITE_BUSY: database is locked" (by decide)).1 rfl).1.trans (by decide),
   ((write_error_mapping decimalRowid twoStore "1" "John Smith" "jane.doe@example.com" "Dev"
      9 none none uniqueViolation (by decide)).2 rfl).1.trans (by decide)⟩


/-! ## Records a request does not target -/

theorem filter_rewrite_others (key : Option Nat) (n e p : String) (now : Nat)
    (rows : List Employee) :
    (rows.map (fun r => if r.hasKey key then r.rewrite n e p now else r)).filter
        (fun r => !r.hasKey key)
      = rows.filter (fun r => !r.hasKey key) := by
  induction rows with
  | nil => rfl
  | cons a rows ih =>
    have hrw : (a.rewrite n e p now).hasKey key = a.hasKey key := rfl
    cases ha : a.hasKey key with
    | true => simp [List.filter_cons, ha, hrw, ih]
    | false => simp [List.filter_cons, ha, ih]

theorem deleteEmployee_store (κ : RowidOf) (st : Store) (id : String) (fault : Option String) :
    (deleteEmployee κ st id fault).1 = st ∨
    (deleteEmployee κ st id fault).1 = ⟨st.rows.filter (fun r => !r.hasKey (κ id)), st.seq⟩ := by
  cases fault with
  | some m => left; rfl
  | none =>
    right
    simp only [deleteEmployee, sqlDelete]
    split <;> rfl

/-- C27: on every store and under every outcome, a create keeps every stored
record in place, an update of id i leaves the records of other ids as they
were, a delete of id i removes nothing but records of id i, and list and
get-by-id return the store they were given. -/
theorem other_records_unchanged (κ : RowidOf) (st : Store) (env : Env) :
    (∀ b, st.rows <+: (handle κ st env (.create b)).1.rows) ∧
    (∀ id b,
      (handle κ st env (.update id b)).1.rows.filter (fun r => !r.hasKey (κ id))
        = st.rows.filter (fun r => !r.hasKey (κ id)) ∧
      (handle κ st env (.update id b)).1.rows.length = st.rows.length) ∧
    (∀ id,
      (handle κ st env (.delete id)).1.rows.filter (fun r => !r.hasKey (κ id))
        = st.rows.filter (fun r => !r.hasKey (κ id)) ∧
      (handle κ st env (.delete id)).1.rows.Sublist st.rows) ∧
    (handle κ st env .list).1 = st ∧
    (∀ id, (handle κ st env (.get id)).1 = st) := by
  refine ⟨?_, ?_, ?_, listEmployees_store st env.fault,
    fun id => getEmployee_store κ st id env.fault⟩
  · intro b
    simp only [handle]
    rcases createEmployee_rows st b env.now env.fault env.fault2 with hs | ⟨n, e, p, -, hs⟩
    · rw [hs]
    · rw [hs]; exact List.prefix_append _ _
  · intro id b
    simp only [handle]
    rcases updateEmployee_rows κ st id b env.now env.fault env.fault2 with
      hs | ⟨n, e, p, -, hs⟩
    · rw [hs]; exact ⟨rfl, rfl⟩
    · rw [hs]
      exact ⟨filter_rewrite_others _ _ _ _ _ _, List.length_map _ _⟩
  · intro id
    simp only [handle]
    rcases deleteEmployee_store κ st id env.fault with hs | hs
    · rw [hs]; exact ⟨rfl, List.Sublist.refl _⟩
    · rw [hs]
      refine ⟨?_, List.filter_sublist _⟩
      simp [List.filter_filter]

/-! ## Ids -/

theorem createEmployee_created_id (st : Store) (b : Body) (now : Nat)
    (fault fault2 : Option String) (row : Employee)
    (h : (createEmployee st b now fault fault2).2 = ⟨201, .record row⟩) :
    row.id = st.nextId := by
  unfold createEmployee at h
  split at h
  · simp [internalError] at h
  · rename_i status msg hv
    have := (validateEmployee_reject hv).1
    subst this
    simp at h
  · split at h
    · rename_i name email position _ _ _
      split at h
      · split at h <;> simp at h
      · rename_i st1 lastID hins
        split at h
        · simp at h
        · rename_i rowopt hsel
          simp only [Response.mk.injEq, true_and] at h
          cases rowopt with
          | none => simp [RespBody.ofRow] at h
          | some r =>
            simp only [RespBody.ofRow, RespBody.record.injEq] at h
            subst h
            cases fault2 with
            | some m => simp [sqlSelectById] at hsel
            | none =>
              simp only [sqlSelectById, Except.ok.injEq] at hsel
              have hk := (find_hasKey_some hsel).2
              simp only [Option.some.injEq] at hk
              cases fault with
              | some m => simp [sqlInsert] at hins
              | none =>
                simp only [sqlInsert] at hins
                split at hins
                · cases hins
                · simp only [Except.ok.injEq, Prod.mk.injEq] at hins
                  rw [← hk, ← hins.2]
    · simp [internalError] at h

theorem updateEmployee_ids (κ : RowidOf) (st : Store) (id : String) (b : Body) (now : Nat)
    (fault fault2 : Option String) :
    (updateEmployee κ st id b now fault fault2).1.rows.map Employee.id
      = st.rows.map Employee.id := by
  rcases updateEmployee_rows κ st id b now fault fault2 with hs | ⟨n, e, p, -, hs⟩
  · rw [hs]
  · rw [hs]
    exact update_rows_ids (κ id) (jsTrim n) (jsTrim e) (jsTrim p) now st.rows

/-- C28: in every store, the id of a record that create answers with 201
differs from the id of every record stored before; in every reachable store no
two records share an id; and no update request, whatever its outcome, changes
the id of a record. -/
theorem ids_fresh_unique_stable (κ : RowidOf) (st : Store) :
    (∀ b now fault fault2 row,
      (createEmployee st b now fault fault2).2 = ⟨201, .record row⟩ →
      ∀ r ∈ st.rows, r.id ≠ row.id) ∧
    (Reachable κ st → (st.rows.map Employee.id).Nodup) ∧
    (∀ id b now fault fault2,
      (updateEmployee κ st id b now fault fault2).1.rows.map Employee.id
        = st.rows.map Employee.id) := by
  refine ⟨?_, fun h => (reachable_wf h).2, updateEmployee_ids κ st⟩
  intro b now fault fault2 row h r hr hid
  have h1 := createEmployee_created_id st b now fault fault2 row h
  have h2 := id_lt_nextId st r hr
  omega


/-! ## Requests that match no route -/

/-- C21 (counterexample): an OPTIONS request to `/api/unknown` matches no route
and is ended by `cors()` with the empty 204; a POST to `/api/unknown` whose
JSON body does not parse matches no route and is answered 500 by the error
middleware. -/
theorem unmatched_request_not_404 :
    routeOf .OPTIONS "/api/unknown" = none ∧
    serve decimalRowid some "2026-01-01T00:00:00.000Z" Store.init ⟨0, none, none⟩
        ⟨.OPTIONS, "/api/unknown", some emptyBody⟩ = (Store.init, .preflight) ∧
    routeOf .POST "/api/unknown" = none ∧
    serve decimalRowid some "2026-01-01T00:00:00.000Z" Store.init ⟨0, none, none⟩
        ⟨.POST, "/api/unknown", none⟩
      = (Store.init, .json ⟨500, .error "Internal server error"⟩) := by
  refine ⟨by decide, by decide, by decide, by decide⟩

/-- C21 (amended): every request that is not a preflight (method other than
OPTIONS), whose body the JSON parser accepts, and whose method and path match
none of the six routes is answered 404 with the error 'Endpoint not found', and
the store is left as it was. -/
theorem unmatched_request_not_found (κ : RowidOf) (decode : String → Option String)
    (clock : String) (st : Store) (env : Env) (req : HttpRequest) (b : Body)
    (hm : req.method ≠ .OPTIONS) (hb : req.body = some b)
    (hr : routeOf req.method req.path = none) :
    serve κ decode clock st env req = (st, .json ⟨404, .error "Endpoint not found"⟩) := by
  unfold serve
  rw [if_neg hm, hb]
  simp only [hr]

theorem unmatched_request_not_found_witness :
    serve decimalRowid some "2026-01-01T00:00:00.000Z" twoStore ⟨0, none, none⟩
        ⟨.GET, "/api/unknown", some emptyBody⟩
      = (twoStore, .json ⟨404, .error "Endpoint not found"⟩) :=
  unmatched_request_not_found decimalRowid some "2026-01-01T00:00:00.000Z" twoStore
    ⟨0, none, none⟩ ⟨.GET, "/api/unknown", some emptyBody⟩ emptyBody (by decide) rfl
    (by decide)


/-! ## The client: filtered view -/

theorem jsIncludes_iff (s sub : String) : jsIncludes s sub = true ↔ sub.data <:+: s.data := by
  simp [jsIncludes]

/-- C22: for every local list and search term, the filtered view holds exactly
the employees whose lower-cased name, email or position has the lower-cased
term as a substring, each as often as the local list holds it and in the
order of the local list; with the empty term it is the whole list. -/
theorem filtered_view_exact (toLowerCase : String → String) (employees : List Employee)
    (searchTerm : String) :
    (∀ emp, emp ∈ filteredEmployees toLowerCase employees searchTerm ↔
      emp ∈ employees ∧
        ((toLowerCase searchTerm).data <:+: (toLowerCase emp.name).data ∨
         (toLowerCase searchTerm).data <:+: (toLowerCase emp.email).data ∨
         (toLowerCase searchTerm).data <:+: (toLowerCase emp.position).data)) ∧
    (∀ emp, emp ∈ filteredEmployees toLowerCase employees searchTerm →
      (filteredEmployees toLowerCase employees searchTerm).count emp = employees.count emp) ∧
    (filteredEmployees toLowerCase employees searchTerm).Sublist employees ∧
    (toLowerCase "" = "" → filteredEmployees toLowerCase employees "" = employees) := by
  refine ⟨?_, ?_, List.filter_sublist _, ?_⟩
  · intro emp
    unfold filteredEmployees
    rw [List.mem_filter]
    simp only [Bool.or_eq_true, jsIncludes_iff, or_assoc]
  · intro emp hemp
    unfold filteredEmployees at hemp ⊢
    exact List.count_filter (List.mem_filter.mp hemp).2
  · intro h0
    unfold filteredEmployees
    rw [List.filter_eq_self]
    intro emp _
    have : jsIncludes (toLowerCase emp.name) (toLowerCase "") = true := by
      rw [jsIncludes_iff, h0]
      exact List.nil_infix
    simp [this]

theorem filtered_view_exact_witness :
    filteredEmployees asciiLowerCase twoStore.rows "" = twoStore.rows :=
  (filtered_view_exact asciiLowerCase twoStore.rows "").2.2.2 (by decide)

/-! ## The client: a failed submit -/

/-- C23: when the form passes `validateForm` and the create or update request
fails with an API error carrying a message, `handleSubmit` opens an error
notification with that message and leaves the local list, the form data, the
employee being edited and the dialog as they were, hence the filtered view
too. -/
theorem failed_submit_keeps_state (ui : UiState) (apiMessage message : String)
    (fetch : AxiosResult (List Employee))
    (hform : (validateForm ui.formData).2 = true) (hmsg : apiMessage ≠ "") :
    (handleSubmit ui (.failed (some apiMessage) message) fetch).snackbar
      = ⟨true, apiMessage, "error"⟩ ∧
    (handleSubmit ui (.failed (some apiMessage) message) fetch).employees = ui.employees ∧
    (handleSubmit ui (.failed (some apiMessage) message) fetch).formData = ui.formData ∧
    (handleSubmit ui (.failed (some apiMessage) message) fetch).editingEmployee
      = ui.editingEmployee ∧
    (handleSubmit ui (.failed (some apiMessage) message) fetch).openDialog = ui.openDialog ∧
    (handleSubmit ui (.failed (some apiMessage) message) fetch).searchTerm = ui.searchTerm := by
  have hne : (apiMessage != "") = true := by simpa using hmsg
  simp only [handleSubmit, hform, Bool.not_true, Bool.false_eq_true, if_false, showSnackbar,
    errorMessageOf, hne, if_true, and_self]

theorem failed_submit_keeps_state_witness :
    (handleSubmit editingUi (.failed (some "Email already exists")
        "Request failed with status code 400") (.ok [])).snackbar
      = ⟨true, "Email already exists", "error"⟩ ∧
    (handleSubmit editingUi (.failed (some "Email already exists")
        "Request failed with status code 400") (.ok [])).employees = editingUi.employees ∧
    (handleSubmit editingUi (.failed (some "Email already exists")
        "Request failed with status code 400") (.ok [])).formData = editingUi.formData ∧
    (handleSubmit editingUi (.failed (some "Email already exists")
        "Request failed with status code 400") (.ok [])).editingEmployee
      = editingUi.editingEmployee ∧
    (handleSubmit editingUi (.failed (some "Email already exists")
        "Request failed with status code 400") (.ok [])).openDialog = editingUi.openDialog ∧
    (handleSubmit editingUi (.failed (some "Email already exists")
        "Request failed with status code 400") (.ok [])).searchTerm = editingUi.searchTerm :=
  failed_submit_keeps_state editingUi "Email already exists"
    "Request failed with status code 400" (.ok []) (by decide) (by decide)

/-! ## The client's validation against the server's -/

theorem test_of_rmatch {r : Regex} {w : List Char} (h : r.rmatch w = true) :
    r.test w = true := by
  unfold Regex.test
  rw [List.any_eq_true]
  refine ⟨w, (List.mem_tails _ _).mpr (List.suffix_refl w), ?_⟩
  rw [List.any_eq_true]
  exact ⟨w, (List.mem_inits _ _).mpr (List.prefix_refl w), h⟩

theorem mem_plus_nonSpace_of_isRun {w : List Char} (h : IsRun w) :
    w ∈ (Regex.plus (.cls nonSpace)).lang := by
  rw [mem_plus_cls]
  refine ⟨h.1, fun c hc => ?_⟩
  simp [nonSpace, notSpaceAt_not_space (h.2 c hc)]

theorem formEmailRegex_of_shape {w : List Char} (h : EmailShape w) :
    formEmailRegex.rmatch w = true := by
  rw [Regex.rmatch_iff]
  obtain ⟨l, d1, d2, rfl, hl, hd1, hd2⟩ := h
  unfold formEmailRegex
  rw [Regex.lang]
  refine Language.append_mem_mul (mem_plus_nonSpace_of_isRun hl) ?_
  rw [Regex.lang]
  refine Language.append_mem_mul (a := ['@']) ((mem_cls_eq _ _).mpr rfl) ?_
  rw [Regex.lang]
  refine Language.append_mem_mul (mem_plus_nonSpace_of_isRun hd1) ?_
  rw [Regex.lang]
  exact Language.append_mem_mul (a := ['.']) ((mem_cls_eq _ _).mpr rfl)
    (mem_plus_nonSpace_of_isRun hd2)

/-- C29: for every form with string fields that the server's `validateEmployee`
accepts, the client's `validateForm` returns true and sets no field error; and
the form with email `a b@c.d e` passes `validateForm` while the server answers
400 'Invalid email format'. -/
theorem client_validation_weaker :
    (∀ n e p : String, validateEmployee ⟨.str n, .str e, .str p⟩ = .next →
      validateForm ⟨n, e, p⟩ = (⟨none, none, none⟩, true)) ∧
    validateForm ⟨"Ann", "a b@c.d e", "Dev"⟩ = (⟨none, none, none⟩, true) ∧
    validateEmployee ⟨.str "Ann", .str "a b@c.d e", .str "Dev"⟩
      = .reject 400 "Invalid email format" := by
  refine ⟨?_, by decide, by decide⟩
  intro n e p hv
  obtain ⟨n1, e1, p1, hb, hn, ht, hte, hp⟩ := validateEmployee_next hv
  simp only [Body.mk.injEq, JVal.str.injEq] at hb
  obtain ⟨rfl, rfl, rfl⟩ := hb
  have hne : jsTrim e ≠ "" := by
    rw [hte]
    exact emailTest_ne_empty ht
  have htest : formEmailRegex.test e.data = true :=
    test_of_rmatch (formEmailRegex_of_shape ((emailTest_iff_shape e).mp ht))
  simp [validateForm, hn, hne, hp, htest]


end EmployeeApi
